import Mathlib

/-
Verification development for transmit.c, a small SFTP file-transfer utility.

The remote filesystem visible through the SFTP subsession is modelled as a
rose tree of named entries.  Remote paths are modelled by their lists of
slash-separated components: the C code manipulates paths as strings, but the
remote server resolves them component-wise, and the two string operations the
code performs (appending "/" ++ name to a directory path, and strtok over "/",
which drops empty tokens) correspond exactly to appending one component and to
reading off the component list.

Each embedded operation returns its C return code, the remote filesystem
after the call, the list of remote protocol operations it attempted (the
trace), and the error message it produced, mirroring the err_msg out
parameter.  Server-side or transport faults that the pure tree model cannot
produce by itself (a stat that fails for a reason other than "no such file",
an unlink or rmdir rejected by the server, a readdir that errors out
mid-listing, a short or failing transport write) are injected through an
explicit environment; the ideal environment injects no fault.  Recursion in
sftp_remove_path_recursive is driven by a fuel parameter; running out of fuel
yields an error result, so every property conditioned on a success return
code is unaffected by the artifact.
-/

namespace Transmit

/-- Remote filesystem entry: a regular file with its byte content, or a
directory with its named children.  Bytes are modelled as natural numbers. -/
inductive Entry where
  | file (content : List Nat)
  | dir (children : List (String × Entry))

/-- First entry with the given name in a directory listing.  A real server
never exposes duplicate names, so taking the first match is faithful. -/
def lookupName : List (String × Entry) → String → Option Entry
  | [], _ => none
  | c :: cs, n => if c.1 = n then some c.2 else lookupName cs n

/-- Remove every entry with the given name from a directory listing. -/
def eraseName : List (String × Entry) → String → List (String × Entry)
  | [], _ => []
  | c :: cs, n => if c.1 = n then eraseName cs n else c :: eraseName cs n

/-- Bind the given name to the given entry in a directory listing,
replacing any previous binding. -/
def setEntry (cs : List (String × Entry)) (n : String) (v : Entry) :
    List (String × Entry) :=
  eraseName cs n ++ [(n, v)]

/-- Resolve a component path against an entry, walking through directories. -/
def Entry.resolve : Entry → List String → Option Entry
  | e, [] => some e
  | .file _, _ :: _ => none
  | .dir cs, n :: rest =>
    match lookupName cs n with
    | some e => Entry.resolve e rest
    | none => none

/-- Remove the entry at a component path, leaving the tree unchanged when the
path does not lead to an entry.  Removing the root path is a no-op. -/
def Entry.removeAt : Entry → List String → Entry
  | .dir cs, [n] => .dir (eraseName cs n)
  | .dir cs, n :: m :: rest =>
    match lookupName cs n with
    | some e => .dir (setEntry cs n (Entry.removeAt e (m :: rest)))
    | none => .dir cs
  | e, _ => e

/-- Store an entry at a component path, leaving the tree unchanged when the
parent of the path does not lead into the tree. -/
def Entry.setAt : Entry → List String → Entry → Entry
  | .dir cs, [n], v => .dir (setEntry cs n v)
  | .dir cs, n :: m :: rest, v =>
    match lookupName cs n with
    | some e => .dir (setEntry cs n (Entry.setAt e (m :: rest) v))
    | none => .dir cs
  | e, _, _ => e

/-- Test whether an entry is a directory, as the permission-bits test
LIBSSH2_SFTP_S_ISDIR does on a stat or readdir attribute block. -/
def Entry.isDir : Entry → Bool
  | .dir _ => true
  | .file _ => false

/-- Test whether the entry resolved at a path is a directory. -/
def isDirAt (fs : Entry) (p : List String) : Bool :=
  match fs.resolve p with
  | some e => e.isDir
  | none => false

/-- Remote protocol operations attempted by the embedded code, recorded in
call order.  Opens record whether the acquisition succeeded, so that resource
balance can be stated about successful acquisitions only.  lopenOp and
lcloseOp record the local fopen and fclose of upload_file. -/
inductive Op where
  | statOp (p : List String)
  | unlinkOp (p : List String)
  | rmdirOp (p : List String)
  | mkdirOp (p : List String)
  | opendirOp (p : List String) (ok : Bool)
  | closedirOp (p : List String)
  | openFileOp (p : List String) (ok : Bool)
  | closeFileOp (p : List String)
  | writeOp (p : List String) (n : Nat)
  | lopenOp (ok : Bool)
  | lcloseOp
deriving DecidableEq

/-- Path an operation acts on; the two local-file operations carry none and
report the root path. -/
def Op.path : Op → List String
  | .statOp p => p
  | .unlinkOp p => p
  | .rmdirOp p => p
  | .mkdirOp p => p
  | .opendirOp p _ => p
  | .closedirOp p => p
  | .openFileOp p _ => p
  | .closeFileOp p => p
  | .writeOp p _ => p
  | .lopenOp _ => []
  | .lcloseOp => []

/-- Number of bytes a write operation asked the transport to accept; zero for
every other operation. -/
def Op.writeSize : Op → Nat
  | .writeOp _ n => n
  | _ => 0

/-- Number of occurrences of an operation in a trace. -/
def countOp (o : Op) : List Op → Nat
  | [] => 0
  | x :: xs => (if x = o then 1 else 0) + countOp o xs

/-- Fault-injection environment for the remote side.  statErr makes a stat
fail for a reason other than "no such file"; unlinkErr and rmdirErr make the
server reject an otherwise legal unlink or rmdir; opendirErr makes opendir
fail on a real directory; readdirErrAt gives the number of entries a
directory listing yields before readdir returns an error instead of
end-of-listing; writeAccept gives, per write call index, none when the write
call fails and some k when the transport accepts up to k + 1 bytes (a
successful blocking write delivers at least one byte). -/
structure SftpEnv where
  statErr : List String → Bool
  unlinkErr : List String → Bool
  rmdirErr : List String → Bool
  opendirErr : List String → Bool
  readdirErrAt : List String → Option Nat
  writeAccept : Nat → Option Nat

/-- Environment injecting no fault. -/
def SftpEnv.ideal : SftpEnv :=
  ⟨fun _ => false, fun _ => false, fun _ => false, fun _ => false,
    fun _ => none, fun _ => some 1023⟩

/-- Outcome of a stat call. -/
inductive StatRes where
  | found (e : Entry)
  | noSuchFile
  | otherErr

/-- libssh2_sftp_stat: an injected fault reports a non-NotFound error,
otherwise the path either resolves or reports LIBSSH2_FX_NO_SUCH_FILE.  A
found entry always carries its permission attributes in this model. -/
def sftpStat (env : SftpEnv) (fs : Entry) (p : List String) : StatRes :=
  if env.statErr p then .otherErr
  else
    match fs.resolve p with
    | some e => .found e
    | none => .noSuchFile

/-- libssh2_sftp_unlink: succeeds exactly on a regular file at a nonempty
path, unless the environment injects a failure; returns the new tree. -/
def sftpUnlink (env : SftpEnv) (fs : Entry) (p : List String) : Option Entry :=
  if env.unlinkErr p then none
  else
    match p, fs.resolve p with
    | _ :: _, some (.file _) => some (fs.removeAt p)
    | _, _ => none

/-- libssh2_sftp_rmdir: succeeds exactly on an empty directory at a nonempty
path, unless the environment injects a failure. -/
def sftpRmdir (env : SftpEnv) (fs : Entry) (p : List String) : Option Entry :=
  if env.rmdirErr p then none
  else
    match p, fs.resolve p with
    | _ :: _, some (.dir []) => some (fs.removeAt p)
    | _, _ => none

/-- Directory listing as readdir yields it: the dot and dot-dot entries
first, then each child with the directory bit of its attribute block. -/
def dirListing (cs : List (String × Entry)) : List (String × Bool) :=
  (".", true) :: ("..", true) :: cs.map (fun c => (c.1, c.2.isDir))

/-- libssh2_sftp_opendir: succeeds exactly on a directory, unless the
environment injects a failure, and snapshots the listing. -/
def sftpOpendir (env : SftpEnv) (fs : Entry) (p : List String) :
    Option (List (String × Bool)) :=
  if env.opendirErr p then none
  else
    match fs.resolve p with
    | some (.dir cs) => some (dirListing cs)
    | _ => none

/-- libssh2_sftp_mkdir: requires the parent to be an existing directory and
the target name to be absent; creates an empty directory. -/
def sftpMkdir (fs : Entry) (p : List String) : Option Entry :=
  match p.getLast? with
  | none => none
  | some n =>
    match fs.resolve p.dropLast with
    | some (.dir cs) =>
      if (lookupName cs n).isSome then none
      else some (fs.setAt p (.dir []))
    | _ => none

/-- libssh2_sftp_open with write, create and truncate flags: requires the
parent to be an existing directory and the target not to be a directory;
truncates the target to an empty file. -/
def sftpOpenWrite (fs : Entry) (p : List String) : Option Entry :=
  match p.getLast? with
  | none => none
  | some _ =>
    match fs.resolve p.dropLast with
    | some (.dir _) =>
      match fs.resolve p with
      | some (.dir _) => none
      | _ => some (fs.setAt p (.file []))
    | _ => none

/-- Path rendered back to the slash-separated form used in error messages. -/
def pathStr (p : List String) : String :=
  String.intercalate "/" p

/-- Result of an embedded remove or remove-children call: the int return
code of the C function, the remote tree after the call, the trace of remote
operations attempted, and the message stored through err_msg. -/
structure RmOut where
  ret : Int
  fs : Entry
  trace : List Op
  errMsg : Option String

/-- Directory-entry loop of sftp_remove_path_recursive (transmit.c lines
266-289): iterate the listed entries, skip "." and "..", build the child
path path ++ [name], recurse on directory-typed entries and unlink the rest,
aborting on the first failing child.  The recursive call is passed in as go. -/
def rmChildrenGo (env : SftpEnv) (path : List String)
    (go : Entry → List String → RmOut) :
    List (String × Bool) → Entry → RmOut
  | [], fs => ⟨0, fs, [], none⟩
  | (name, isdir) :: rest, fs =>
    if name = "." ∨ name = ".." then rmChildrenGo env path go rest fs
    else
      let child := path ++ [name]
      if isdir then
        let r := go fs child
        if r.ret ≠ 0 then ⟨-1, r.fs, r.trace, r.errMsg⟩
        else
          let r2 := rmChildrenGo env path go rest r.fs
          ⟨r2.ret, r2.fs, r.trace ++ r2.trace, r2.errMsg⟩
      else
        match sftpUnlink env fs child with
        | some fs1 =>
          let r2 := rmChildrenGo env path go rest fs1
          ⟨r2.ret, r2.fs, .unlinkOp child :: r2.trace, r2.errMsg⟩
        | none =>
          ⟨-1, fs, [.unlinkOp child],
            some ("Failed to delete file: " ++ pathStr (path ++ [name]))⟩

/-- Portion of a directory listing the while loop actually sees: everything,
or a prefix when readdir errors out mid-listing, in which case the C loop
breaks exactly as on end-of-listing. -/
def effListing (env : SftpEnv) (p : List String) (l : List (String × Bool)) :
    List (String × Bool) :=
  match env.readdirErrAt p with
  | some k => l.take k
  | none => l

/-- sftp_remove_path_recursive (transmit.c lines 235-300).  Stat the path:
missing paths succeed at once, other stat failures fail; try unlink as a
file; try opendir, and when that fails fall back to a direct rmdir; iterate
the listing via rmChildrenGo, close the listing handle on every exit, and
finally rmdir the directory.  Fuel bounds the recursion depth; exhausted
fuel is an error result. -/
def removeRec (env : SftpEnv) : Nat → Entry → List String → RmOut
  | 0, fs, _ => ⟨-1, fs, [], none⟩
  | fuel + 1, fs, path =>
    match sftpStat env fs path with
    | .noSuchFile => ⟨0, fs, [.statOp path], none⟩
    | .otherErr =>
      ⟨-1, fs, [.statOp path], some ("Failed to stat path: " ++ pathStr path)⟩
    | .found _ =>
      match sftpUnlink env fs path with
      | some fs1 => ⟨0, fs1, [.statOp path, .unlinkOp path], none⟩
      | none =>
        match sftpOpendir env fs path with
        | none =>
          match sftpRmdir env fs path with
          | some fs1 =>
            ⟨0, fs1,
              [.statOp path, .unlinkOp path, .opendirOp path false,
                .rmdirOp path], none⟩
          | none =>
            ⟨-1, fs,
              [.statOp path, .unlinkOp path, .opendirOp path false,
                .rmdirOp path],
              some ("Failed to open or remove path: " ++ pathStr path)⟩
        | some listing =>
          let rc := rmChildrenGo env path
            (fun fs2 p2 => removeRec env fuel fs2 p2)
            (effListing env path listing) fs
          if rc.ret ≠ 0 then
            ⟨-1, rc.fs,
              [.statOp path, .unlinkOp path, .opendirOp path true] ++
                rc.trace ++ [.closedirOp path], rc.errMsg⟩
          else
            match sftpRmdir env rc.fs path with
            | some fs1 =>
              ⟨0, fs1,
                [.statOp path, .unlinkOp path, .opendirOp path true] ++
                  rc.trace ++ [.closedirOp path, .rmdirOp path], none⟩
            | none =>
              ⟨-1, rc.fs,
                [.statOp path, .unlinkOp path, .opendirOp path true] ++
                  rc.trace ++ [.closedirOp path, .rmdirOp path],
                some ("Failed to remove directory: " ++ pathStr path)⟩

/-- Result of an embedded directory-creation call: int return code, remote
tree after the call, trace of remote operations attempted. -/
structure CrOut where
  ret : Int
  fs : Entry
  trace : List Op

/-- Component walk of create_remote_directory_recursively (transmit.c lines
205-229): strtok over "/" yields the component list; each step extends the
accumulated prefix by one component and stats it.  A prefix that exists as a
directory is passed over; one that exists as a non-directory fails the call;
a missing one is created with mkdir, whose failure fails the call. -/
def createLoop (env : SftpEnv) (fs : Entry) (done : List String) :
    List String → CrOut
  | [] => ⟨0, fs, []⟩
  | part :: rest =>
    let cur := done ++ [part]
    match sftpStat env fs cur with
    | .found e =>
      if e.isDir then
        let r := createLoop env fs cur rest
        ⟨r.ret, r.fs, .statOp cur :: r.trace⟩
      else ⟨1, fs, [.statOp cur]⟩
    | _ =>
      match sftpMkdir fs cur with
      | some fs1 =>
        let r := createLoop env fs1 cur rest
        ⟨r.ret, r.fs, .statOp cur :: .mkdirOp cur :: r.trace⟩
      | none => ⟨1, fs, [.statOp cur, .mkdirOp cur]⟩

/-- create_remote_directory_recursively (transmit.c lines 187-232): a first
stat short-circuits when the whole path already exists as a directory,
otherwise the component walk runs from the empty prefix. -/
def create_remote_directory_recursively (env : SftpEnv) (fs : Entry)
    (path : List String) : CrOut :=
  match sftpStat env fs path with
  | .found e =>
    if e.isDir then ⟨0, fs, [.statOp path]⟩
    else
      let r := createLoop env fs [] path
      ⟨r.ret, r.fs, .statOp path :: r.trace⟩
  | _ =>
    let r := createLoop env fs [] path
    ⟨r.ret, r.fs, .statOp path :: r.trace⟩

/-- create_directory (transmit.c lines 182-184): plain wrapper. -/
def create_directory (env : SftpEnv) (fs : Entry) (d : List String) : CrOut :=
  create_remote_directory_recursively env fs d

/-- State of the local path handed to upload_file: missing, a regular file
with its content, or a directory. -/
inductive LocalNode where
  | absent
  | file (content : List Nat)
  | dir

/-- is_directory (transmit.c lines 102-109): stat the local path; a failing
stat reports false, otherwise report the S_ISDIR bit. -/
def is_directory : LocalNode → Bool
  | .dir => true
  | _ => false

/-- fopen of the local path in mode rb: yields the content of a regular
file and fails on a missing path.  The directory case is unreachable in
upload_file because is_directory is checked first. -/
def fopenRb : LocalNode → Option (List Nat)
  | .file c => some c
  | _ => none

/-- Chunk splitter driven by a fuel bound, structurally recursive so that it
evaluates; the fuel never runs out below because the list shrinks by at
least one element per step. -/
def chunksOfGo : Nat → List Nat → List (List Nat)
  | 0, _ => []
  | fuel + 1, l => if l = [] then [] else l.take 1024 :: chunksOfGo fuel (l.drop 1024)

/-- Successive fread chunks of the 1024-byte transfer buffer
(transmit.c line 153). -/
def chunksOf (l : List Nat) : List (List Nat) :=
  chunksOfGo l.length l

/-- Result of flushing one read chunk: bytes the transport accepted, next
write-call index, whether the whole chunk was flushed, write trace. -/
structure FlushOut where
  bytes : List Nat
  nextIdx : Nat
  ok : Bool
  ops : List Op

/-- Fuel-driven core of the inner write loop, structurally recursive so that
it evaluates; each successful write consumes at least one byte, so the fuel
bound used below never runs out. -/
def flushChunkGo (env : SftpEnv) (p : List String) :
    Nat → Nat → List Nat → FlushOut
  | 0, idx, _ => ⟨[], idx, true, []⟩
  | fuel + 1, idx, chunk =>
    if chunk = [] then ⟨[], idx, true, []⟩
    else
      match env.writeAccept idx with
      | none => ⟨[], idx + 1, false, [.writeOp p chunk.length]⟩
      | some k =>
        let n := min chunk.length (k + 1)
        let out := flushChunkGo env p fuel (idx + 1) (chunk.drop n)
        ⟨chunk.take n ++ out.bytes, out.nextIdx, out.ok,
          .writeOp p chunk.length :: out.ops⟩

/-- Inner write loop of upload_file (transmit.c lines 159-169): repeatedly
call libssh2_sftp_write on the unwritten remainder of the chunk, advancing
past however many bytes each call accepted, until the chunk is flushed or a
write call fails. -/
def flushChunk (env : SftpEnv) (p : List String) (idx : Nat)
    (chunk : List Nat) : FlushOut :=
  flushChunkGo env p chunk.length idx chunk

/-- Result of streaming all chunks: bytes accepted by the transport, whether
every chunk was fully flushed, write trace. -/
structure WriteOut where
  bytes : List Nat
  ok : Bool
  ops : List Op

/-- Outer streaming loop of upload_file (transmit.c lines 155-170): flush
each fread chunk in turn, stopping at the first chunk whose flush fails. -/
def writeChunks (env : SftpEnv) (p : List String) (idx : Nat) :
    List (List Nat) → WriteOut
  | [] => ⟨[], true, []⟩
  | c :: rest =>
    let f := flushChunk env p idx c
    if f.ok then
      let w := writeChunks env p f.nextIdx rest
      ⟨f.bytes ++ w.bytes, w.ok, f.ops ++ w.ops⟩
    else ⟨f.bytes, false, f.ops⟩

/-- Result of an embedded upload call. -/
structure UpOut where
  ret : Int
  fs : Entry
  trace : List Op
  errMsg : Option String

/-- upload_file (transmit.c lines 112-179).  Reject a local directory with
no remote operation; ensure the remote parent directory (dirname drops the
final path component); open the remote file for write, create and truncate;
open the local file, closing the remote handle when that fails; stream the
content through the 1024-byte buffer with short-write accounting; close both
handles on every remaining exit path. -/
def upload_file (env : SftpEnv) (fs : Entry) (localPath : String)
    (localNode : LocalNode) (remotePath : List String) : UpOut :=
  if is_directory localNode then
    ⟨1, fs, [],
      some ("Uploading directories is not supported: " ++ localPath)⟩
  else
    let dirPath := remotePath.dropLast
    let c := create_remote_directory_recursively env fs dirPath
    if c.ret ≠ 0 then
      ⟨1, c.fs, c.trace,
        some ("Failed to create remote directory recursively: " ++
          pathStr dirPath)⟩
    else
      match sftpOpenWrite c.fs remotePath with
      | none =>
        ⟨1, c.fs, c.trace ++ [.openFileOp remotePath false],
          some ("Unable to open remote file " ++ pathStr remotePath)⟩
      | some fs1 =>
        match fopenRb localNode with
        | none =>
          ⟨1, fs1,
            c.trace ++
              [.openFileOp remotePath true, .lopenOp false,
                .closeFileOp remotePath],
            some ("Failed to open local file: " ++ localPath)⟩
        | some content =>
          let w := writeChunks env remotePath 0 (chunksOf content)
          let fs2 := fs1.setAt remotePath (.file w.bytes)
          if w.ok then
            ⟨0, fs2,
              c.trace ++ [.openFileOp remotePath true, .lopenOp true] ++
                w.ops ++ [.lcloseOp, .closeFileOp remotePath], none⟩
          else
            ⟨1, fs2,
              c.trace ++ [.openFileOp remotePath true, .lopenOp true] ++
                w.ops ++ [.lcloseOp, .closeFileOp remotePath],
              some ("SFTP write error while writing to: " ++
                pathStr remotePath)⟩

/-- Readiness state of the underlying transport, modelled from the spec
contract for the external secure channel: a zero-timeout select poll reports
whether the descriptor is ready in each direction, and a closed transport is
neither readable nor writable. -/
structure Transport where
  readReady : Bool
  writeReady : Bool
  closed : Bool

/-- Zero-timeout select (transmit.c lines 82-88): the number of polled
directions that are ready. -/
def selectCount (checkRead checkWrite : Bool) (t : Transport) : Nat :=
  (if checkRead && t.readReady then 1 else 0) +
    (if checkWrite && t.writeReady then 1 else 0)

/-- is_session_alive (transmit.c lines 73-91): poll only the direction the
channel is blocked on (bit 1 inbound, bit 2 outbound, both when neither bit
is set) with a zero timeout and report whether anything was ready.  The
probe touches no session state and performs no protocol call. -/
def is_session_alive (t : Transport) (blockDir : Nat) : Bool :=
  let rc :=
    if blockDir &&& 1 ≠ 0 then selectCount true false t
    else if blockDir &&& 2 ≠ 0 then selectCount false true t
    else selectCount true true t
  rc ≠ 0

/-- Outcomes of the successive stages of init_sftp_session. -/
structure InitEnv where
  libInitOk : Bool
  socketOk : Bool
  connectOk : Bool
  handshakeOk : Bool
  authOk : Bool
  sftpInitOk : Bool

/-- Resources init_sftp_session can acquire. -/
inductive InitRes where
  | sock
  | sshSession
  | sftpSub
deriving DecidableEq

/-- Acquisition and release events on init resources. -/
inductive InitStep where
  | acquire (r : InitRes)
  | release (r : InitRes)
deriving DecidableEq

/-- init_sftp_session (transmit.c lines 22-71): libssh2_init, socket,
connect, session handshake, public-key authentication, SFTP subsession
init, each failing stage returning -1 at once.  The trace records the
resources acquired before each exit; the C function contains no close or
free call on any of its paths, so no release step is ever emitted. -/
def init_sftp_session (e : InitEnv) : Int × List InitStep :=
  if !e.libInitOk then (-1, [])
  else if !e.socketOk then (-1, [])
  else if !e.connectOk then (-1, [.acquire .sock])
  else if !e.handshakeOk then (-1, [.acquire .sock, .acquire .sshSession])
  else if !e.authOk then (-1, [.acquire .sock, .acquire .sshSession])
  else if !e.sftpInitOk then (-1, [.acquire .sock, .acquire .sshSession])
  else (0, [.acquire .sock, .acquire .sshSession, .acquire .sftpSub])

/-- Number of occurrences of an init step in an init trace. -/
def countStep (o : InitStep) : List InitStep → Nat
  | [] => 0
  | x :: xs => (if x = o then 1 else 0) + countStep o xs

theorem lookupName_append (l1 l2 : List (String × Entry)) (n : String) :
    lookupName (l1 ++ l2) n =
      match lookupName l1 n with
      | some v => some v
      | none => lookupName l2 n := by
  induction l1 with
  | nil => simp [lookupName]
  | cons c cs ih =>
    by_cases h : c.1 = n <;> simp [lookupName, h, ih]

theorem lookupName_eraseName (cs : List (String × Entry)) (n m : String) :
    lookupName (eraseName cs n) m =
      if m = n then none else lookupName cs m := by
  induction cs with
  | nil => simp [eraseName, lookupName]
  | cons c cs ih =>
    by_cases h : c.1 = n
    · rw [eraseName, if_pos h, ih, lookupName]
      by_cases hm : m = n
      · simp [hm]
      · have : ¬ c.1 = m := fun hc => hm (hc ▸ h.symm ▸ rfl)
        simp [hm, this]
    · rw [eraseName, if_neg h, lookupName, lookupName]
      by_cases hc : c.1 = m
      · have : ¬ m = n := fun hm => h (hc.trans hm)
        simp [hc, this]
      · simp [hc, ih]

theorem lookupName_setEntry (cs : List (String × Entry)) (n : String)
    (v : Entry) (m : String) :
    lookupName (setEntry cs n v) m =
      if m = n then some v else lookupName cs m := by
  rw [setEntry, lookupName_append, lookupName_eraseName]
  by_cases h : m = n
  · simp [h, lookupName]
  · have hnm : ¬ n = m := fun hn => h hn.symm
    simp only [if_neg h, lookupName, if_neg hnm]
    cases lookupName cs m <;> simp

theorem eraseName_append (l1 l2 : List (String × Entry)) (n : String) :
    eraseName (l1 ++ l2) n = eraseName l1 n ++ eraseName l2 n := by
  induction l1 with
  | nil => simp [eraseName]
  | cons c cs ih =>
    by_cases h : c.1 = n <;> simp [eraseName, h, ih]

theorem eraseName_idem (cs : List (String × Entry)) (n : String) :
    eraseName (eraseName cs n) n = eraseName cs n := by
  induction cs with
  | nil => simp [eraseName]
  | cons c cs ih =>
    by_cases h : c.1 = n <;> simp [eraseName, h, ih]

theorem setEntry_setEntry (cs : List (String × Entry)) (n : String)
    (a b : Entry) : setEntry (setEntry cs n a) n b = setEntry cs n b := by
  simp [setEntry, eraseName_append, eraseName_idem, eraseName]

theorem resolve_append (e : Entry) (p q : List String) :
    Entry.resolve e (p ++ q) =
      (Entry.resolve e p).bind (fun x => Entry.resolve x q) := by
  induction p generalizing e with
  | nil => simp [Entry.resolve]
  | cons n rest ih =>
    cases e with
    | file c => simp [Entry.resolve]
    | dir cs =>
      simp only [List.cons_append, Entry.resolve]
      cases lookupName cs n with
      | none => simp
      | some e1 => simp [ih]

theorem resolve_removeAt_self (p : List String) (e : Entry) (hp : p ≠ []) :
    Entry.resolve (e.removeAt p) p = none := by
  induction p generalizing e with
  | nil => exact absurd rfl hp
  | cons n rest ih =>
    cases rest with
    | nil =>
      cases e with
      | file c => simp [Entry.removeAt, Entry.resolve]
      | dir cs => simp [Entry.removeAt, Entry.resolve, lookupName_eraseName]
    | cons m rest2 =>
      cases e with
      | file c => simp [Entry.removeAt, Entry.resolve]
      | dir cs =>
        rw [Entry.removeAt]
        cases hl : lookupName cs n with
        | none => simp [Entry.resolve, hl]
        | some e1 =>
          simp only [Entry.resolve, lookupName_setEntry, if_pos rfl]
          exact ih e1 (by simp)

theorem resolve_setAt_self (p : List String) (e v : Entry)
    (cs0 : List (String × Entry))
    (hpar : Entry.resolve e p.dropLast = some (.dir cs0)) (hp : p ≠ []) :
    Entry.resolve (e.setAt p v) p = some v := by
  induction p generalizing e cs0 with
  | nil => exact absurd rfl hp
  | cons n rest ih =>
    cases rest with
    | nil =>
      simp only [List.dropLast_single, Entry.resolve] at hpar
      cases hpar
      simp [Entry.setAt, Entry.resolve, lookupName_setEntry]
    | cons m rest2 =>
      have hdl : (n :: m :: rest2).dropLast = n :: (m :: rest2).dropLast := rfl
      rw [hdl] at hpar
      cases e with
      | file c => simp [Entry.resolve] at hpar
      | dir cs =>
        rw [Entry.resolve] at hpar
        cases hl : lookupName cs n with
        | none => rw [hl] at hpar; simp at hpar
        | some e1 =>
          rw [hl] at hpar
          rw [Entry.setAt, hl, Entry.resolve, lookupName_setEntry, if_pos rfl]
          exact ih e1 cs0 hpar (by simp)

theorem setAt_setAt (p : List String) (e u v : Entry) :
    Entry.setAt (Entry.setAt e p u) p v = Entry.setAt e p v := by
  induction p generalizing e with
  | nil => cases e <;> simp [Entry.setAt]
  | cons n rest ih =>
    cases rest with
    | nil =>
      cases e with
      | file c => simp [Entry.setAt]
      | dir cs => simp [Entry.setAt, setEntry_setEntry]
    | cons m rest2 =>
      cases e with
      | file c => simp [Entry.setAt]
      | dir cs =>
        cases hl : lookupName cs n with
        | none => simp [Entry.setAt, hl]
        | some e1 =>
          simp only [Entry.setAt, hl, lookupName_setEntry, setEntry_setEntry]
          simp [ih e1]

theorem getLast?_cons_ne {α : Type} (a : α) (l : List α) (h : l ≠ []) :
    (a :: l).getLast? = l.getLast? := by
  cases l with
  | nil => exact absurd rfl h
  | cons b t => simp [List.getLast?_cons_cons]

theorem singleton_prefix_cons {α : Type} [DecidableEq α] (P : List α)
    (a b : α) (s : List α) : (P ++ [a]) <+: (P ++ b :: s) ↔ a = b := by
  induction P with
  | nil =>
    constructor
    · rintro ⟨t, ht⟩
      simp only [List.cons_append, List.nil_append, List.cons.injEq] at ht
      exact ht.1
    · rintro rfl
      exact ⟨s, rfl⟩
  | cons x xs ih =>
    constructor
    · rintro ⟨t, ht⟩
      simp only [List.cons_append, List.cons.injEq] at ht
      exact ih.mp ⟨t, ht.2⟩
    · rintro rfl
      exact ⟨s, by simp⟩

theorem resolve_parent_dir (e : Entry) (p q : List String) (x : Entry)
    (hq : q ≠ []) (h : Entry.resolve e (p ++ q) = some x) :
    ∃ cs, Entry.resolve e p = some (.dir cs) := by
  rw [resolve_append] at h
  cases he : Entry.resolve e p with
  | none => rw [he] at h; simp at h
  | some e1 =>
    rw [he] at h
    simp only [Option.bind] at h
    cases e1 with
    | file c =>
      cases q with
      | nil => exact absurd rfl hq
      | cons n rest => simp [Entry.resolve] at h
    | dir cs => exact ⟨cs, rfl⟩

theorem resolve_of_stat_noSuchFile (env : SftpEnv) (fs : Entry)
    (p : List String) (h : sftpStat env fs p = .noSuchFile) :
    Entry.resolve fs p = none := by
  rw [sftpStat] at h
  split at h
  · cases h
  · cases hr : Entry.resolve fs p with
    | none => rfl
    | some e => rw [hr] at h; cases h

theorem statErr_of_stat_otherErr (env : SftpEnv) (fs : Entry)
    (p : List String) (h : sftpStat env fs p = .otherErr) :
    env.statErr p = true := by
  rw [sftpStat] at h
  split at h
  · assumption
  · cases hr : Entry.resolve fs p with
    | none => rw [hr] at h; cases h
    | some e => rw [hr] at h; cases h

theorem sftpStat_found (env : SftpEnv) (fs : Entry) (p : List String)
    (e : Entry) (h0 : env.statErr p = false)
    (h1 : Entry.resolve fs p = some e) : sftpStat env fs p = .found e := by
  simp [sftpStat, h0, h1]

theorem sftpUnlink_some_eq (env : SftpEnv) (fs : Entry) (p : List String)
    (fs1 : Entry) (h : sftpUnlink env fs p = some fs1) :
    fs1 = fs.removeAt p ∧ p ≠ [] := by
  rw [sftpUnlink.eq_def] at h
  by_cases he : env.unlinkErr p = true
  · rw [if_pos he] at h; cases h
  · rw [if_neg he] at h
    cases hr : Entry.resolve fs p with
    | none =>
      rw [hr] at h
      cases p <;> simp at h
    | some e =>
      rw [hr] at h
      cases p with
      | nil => cases e <;> simp at h
      | cons a q =>
        cases e with
        | file c =>
          simp only [Option.some.injEq] at h
          exact ⟨h.symm, by simp⟩
        | dir cs => simp at h

theorem sftpUnlink_of_dir (env : SftpEnv) (fs : Entry) (p : List String)
    (ds : List (String × Entry)) (h : Entry.resolve fs p = some (.dir ds)) :
    sftpUnlink env fs p = none := by
  rw [sftpUnlink.eq_def, h]
  cases he : env.unlinkErr p <;> simp

theorem sftpRmdir_some_eq (env : SftpEnv) (fs : Entry) (p : List String)
    (fs1 : Entry) (h : sftpRmdir env fs p = some fs1) :
    fs1 = fs.removeAt p ∧ p ≠ [] := by
  rw [sftpRmdir.eq_def] at h
  by_cases he : env.rmdirErr p = true
  · rw [if_pos he] at h; cases h
  · rw [if_neg he] at h
    cases hr : Entry.resolve fs p with
    | none =>
      rw [hr] at h
      cases p <;> simp at h
    | some e =>
      rw [hr] at h
      cases p with
      | nil => cases e <;> simp at h
      | cons a q =>
        cases e with
        | file c => simp at h
        | dir cs =>
          cases cs with
          | nil =>
            simp only [Option.some.injEq] at h
            exact ⟨h.symm, by simp⟩
          | cons d ds2 => simp at h

theorem sftpOpendir_some_eq (env : SftpEnv) (fs : Entry) (p : List String)
    (l : List (String × Bool)) (h : sftpOpendir env fs p = some l) :
    ∃ ds, Entry.resolve fs p = some (.dir ds) ∧ l = dirListing ds := by
  rw [sftpOpendir] at h
  split at h
  · cases h
  · split at h
    · rename_i ds hr
      cases h
      exact ⟨ds, hr, rfl⟩
    · cases h

theorem removeRec_dir_unfold (env : SftpEnv) (n : Nat) (fs : Entry)
    (P : List String) (ds : List (String × Entry))
    (h0 : env.statErr P = false)
    (h1 : Entry.resolve fs P = some (.dir ds))
    (h2 : env.opendirErr P = false) :
    removeRec env (n + 1) fs P =
      (let rc := rmChildrenGo env P (fun fs2 p2 => removeRec env n fs2 p2)
        (effListing env P (dirListing ds)) fs
      if rc.ret ≠ 0 then
        ⟨-1, rc.fs,
          [.statOp P, .unlinkOp P, .opendirOp P true] ++ rc.trace ++
            [.closedirOp P], rc.errMsg⟩
      else
        match sftpRmdir env rc.fs P with
        | some fs1 =>
          ⟨0, fs1,
            [.statOp P, .unlinkOp P, .opendirOp P true] ++ rc.trace ++
              [.closedirOp P, .rmdirOp P], none⟩
        | none =>
          ⟨-1, rc.fs,
            [.statOp P, .unlinkOp P, .opendirOp P true] ++ rc.trace ++
              [.closedirOp P, .rmdirOp P],
            some ("Failed to remove directory: " ++ pathStr P)⟩) := by
  have hstat : sftpStat env fs P = .found (.dir ds) := sftpStat_found env fs P _ h0 h1
  have hunl : sftpUnlink env fs P = none := sftpUnlink_of_dir env fs P ds h1
  have hod : sftpOpendir env fs P = some (dirListing ds) := by
    simp [sftpOpendir, h2, h1]
  rw [removeRec, hstat, hunl, hod]

/-- C5: sftp_remove_path_recursive on a path that does not exist remotely
returns success immediately and performs no remote mutation beyond the
single stat, while a stat failure for any reason other than no-such-file
makes the call fail, also after the single stat only. -/
theorem remove_absent_path_noop (env : SftpEnv) (n : Nat) (fs : Entry)
    (P : List String) :
    (Entry.resolve fs P = none → env.statErr P = false →
      (removeRec env (n + 1) fs P).ret = 0 ∧
      (removeRec env (n + 1) fs P).fs = fs ∧
      (removeRec env (n + 1) fs P).trace = [.statOp P]) ∧
    (env.statErr P = true →
      (removeRec env (n + 1) fs P).ret = -1 ∧
      (removeRec env (n + 1) fs P).fs = fs ∧
      (removeRec env (n + 1) fs P).trace = [.statOp P]) := by
  constructor
  · intro hres herr
    simp [removeRec, sftpStat, herr, hres]
  · intro herr
    simp [removeRec, sftpStat, herr]

/-- Witness for C5 at a concrete absent path in the ideal environment. -/
theorem remove_absent_path_noop_witness :
    (removeRec .ideal 1 (.dir []) ["a"]).ret = 0 ∧
    (removeRec .ideal 1 (.dir []) ["a"]).fs = .dir [] ∧
    (removeRec .ideal 1 (.dir []) ["a"]).trace = [.statOp ["a"]] :=
  (remove_absent_path_noop .ideal 0 (.dir []) ["a"]).1 rfl rfl

/-- C7: upload_file on a local path that denotes a directory fails with a
descriptive error message and performs zero remote operations: its result is
exactly failure code 1, the untouched remote tree, the empty remote trace,
and the unsupported-directory message. -/
theorem upload_rejects_local_directory (env : SftpEnv) (fs : Entry)
    (localPath : String) (remotePath : List String) :
    upload_file env fs localPath .dir remotePath =
      ⟨1, fs, [],
        some ("Uploading directories is not supported: " ++ localPath)⟩ :=
  rfl

/-- C8: the liveness probe polls exactly the direction the channel is
blocked on (read for inbound, write for outbound, both otherwise), and on a
transport whose readiness reflects being closed it returns false exactly
when the transport is closed. -/
theorem liveness_probe_spec (t : Transport) (blockDir : Nat) :
    (blockDir &&& 1 ≠ 0 → is_session_alive t blockDir = t.readReady) ∧
    (blockDir &&& 1 = 0 → blockDir &&& 2 ≠ 0 →
      is_session_alive t blockDir = t.writeReady) ∧
    (blockDir &&& 1 = 0 → blockDir &&& 2 = 0 →
      is_session_alive t blockDir = (t.readReady || t.writeReady)) ∧
    (t.readReady = !t.closed → t.writeReady = !t.closed →
      (is_session_alive t blockDir = false ↔ t.closed = true)) := by
  obtain ⟨r, w, c⟩ := t
  refine ⟨?_, ?_, ?_, ?_⟩
  · intro h1
    simp only [is_session_alive]
    rw [if_pos h1]
    cases r <;> simp [selectCount]
  · intro h1 h2
    simp only [is_session_alive]
    rw [if_neg (fun hh => hh h1), if_pos h2]
    cases w <;> simp [selectCount]
  · intro h1 h2
    simp only [is_session_alive]
    rw [if_neg (fun hh => hh h1), if_neg (fun hh => hh h2)]
    cases r <;> cases w <;> simp [selectCount]
  · intro hr hw
    dsimp only at hr hw ⊢
    subst hr
    subst hw
    by_cases h1 : blockDir &&& 1 ≠ 0
    · simp only [is_session_alive]
      rw [if_pos h1]
      cases c <;> simp [selectCount]
    · by_cases h2 : blockDir &&& 2 ≠ 0
      · simp only [is_session_alive]
        rw [if_neg h1, if_pos h2]
        cases c <;> simp [selectCount]
      · simp only [is_session_alive]
        rw [if_neg h1, if_neg h2]
        cases c <;> simp [selectCount]

/-- Witness for C8 on a concrete closed transport blocked inbound. -/
theorem liveness_probe_spec_witness :
    is_session_alive ⟨false, false, true⟩ 1 = false ↔
      (Transport.mk false false true).closed = true :=
  (liveness_probe_spec ⟨false, false, true⟩ 1).2.2.2 rfl rfl

/-- C10: when readdir errors out after k entries, sftp_remove_path_recursive
stops iterating as on a normal end of listing, closes the listing handle,
and proceeds to rmdir: its trace is exactly the truncated child-loop trace
bracketed by the opendir and the closedir plus rmdir, and the error it can
then report is the rmdir failure, never a listing failure. -/
theorem remove_readdir_error_fallthrough (env : SftpEnv) (n : Nat)
    (fs : Entry) (P : List String) (ds : List (String × Entry)) (k : Nat)
    (h0 : env.statErr P = false)
    (h1 : Entry.resolve fs P = some (.dir ds))
    (h2 : env.opendirErr P = false)
    (h3 : env.readdirErrAt P = some k) :
    ((rmChildrenGo env P (fun fs2 p2 => removeRec env n fs2 p2)
        ((dirListing ds).take k) fs).ret = 0 →
      (removeRec env (n + 1) fs P).trace =
        [.statOp P, .unlinkOp P, .opendirOp P true] ++
          (rmChildrenGo env P (fun fs2 p2 => removeRec env n fs2 p2)
            ((dirListing ds).take k) fs).trace ++
          [.closedirOp P, .rmdirOp P] ∧
      (((removeRec env (n + 1) fs P).ret = 0 ∧
          (removeRec env (n + 1) fs P).errMsg = none) ∨
        ((removeRec env (n + 1) fs P).ret = -1 ∧
          (removeRec env (n + 1) fs P).errMsg =
            some ("Failed to remove directory: " ++ pathStr P)))) ∧
    ((rmChildrenGo env P (fun fs2 p2 => removeRec env n fs2 p2)
        ((dirListing ds).take k) fs).ret ≠ 0 →
      (removeRec env (n + 1) fs P).trace =
        [.statOp P, .unlinkOp P, .opendirOp P true] ++
          (rmChildrenGo env P (fun fs2 p2 => removeRec env n fs2 p2)
            ((dirListing ds).take k) fs).trace ++
          [.closedirOp P] ∧
      (removeRec env (n + 1) fs P).errMsg =
        (rmChildrenGo env P (fun fs2 p2 => removeRec env n fs2 p2)
          ((dirListing ds).take k) fs).errMsg) := by
  have heff : effListing env P (dirListing ds) = (dirListing ds).take k := by
    simp [effListing, h3]
  have hu := removeRec_dir_unfold env n fs P ds h0 h1 h2
  rw [heff] at hu
  constructor
  · intro hrc
    rw [hu]
    simp only [hrc]
    cases hrm : sftpRmdir env
        (rmChildrenGo env P (fun fs2 p2 => removeRec env n fs2 p2)
          ((dirListing ds).take k) fs).fs P with
    | some fs1 => simp [hrm]
    | none => simp [hrm]
  · intro hrc
    rw [hu]
    simp [hrc]

/-- Witness for C10: a directory with one child whose listing errors out
after the two dot entries, so no child is visited and the reported failure
is the rmdir of the still-nonempty directory. -/
theorem remove_readdir_error_fallthrough_witness :
    (removeRec
        ⟨fun _ => false, fun _ => false, fun _ => false, fun _ => false,
          fun p => if p = ["d"] then some 2 else none, fun _ => some 1023⟩
        2 (.dir [("d", .dir [("x", .file [])])]) ["d"]).trace =
      [.statOp ["d"], .unlinkOp ["d"], .opendirOp ["d"] true] ++
        (rmChildrenGo
          ⟨fun _ => false, fun _ => false, fun _ => false, fun _ => false,
            fun p => if p = ["d"] then some 2 else none, fun _ => some 1023⟩
          ["d"]
          (fun fs2 p2 => removeRec
            ⟨fun _ => false, fun _ => false, fun _ => false, fun _ => false,
              fun p => if p = ["d"] then some 2 else none, fun _ => some 1023⟩
            1 fs2 p2)
          ((dirListing [("x", .file [])]).take 2)
          (.dir [("d", .dir [("x", .file [])])])).trace ++
        [.closedirOp ["d"], .rmdirOp ["d"]] ∧
    (((removeRec
        ⟨fun _ => false, fun _ => false, fun _ => false, fun _ => false,
          fun p => if p = ["d"] then some 2 else none, fun _ => some 1023⟩
        2 (.dir [("d", .dir [("x", .file [])])]) ["d"]).ret = 0 ∧
        (removeRec
          ⟨fun _ => false, fun _ => false, fun _ => false, fun _ => false,
            fun p => if p = ["d"] then some 2 else none, fun _ => some 1023⟩
          2 (.dir [("d", .dir [("x", .file [])])]) ["d"]).errMsg = none) ∨
      ((removeRec
          ⟨fun _ => false, fun _ => false, fun _ => false, fun _ => false,
            fun p => if p = ["d"] then some 2 else none, fun _ => some 1023⟩
          2 (.dir [("d", .dir [("x", .file [])])]) ["d"]).ret = -1 ∧
        (removeRec
          ⟨fun _ => false, fun _ => false, fun _ => false, fun _ => false,
            fun p => if p = ["d"] then some 2 else none, fun _ => some 1023⟩
          2 (.dir [("d", .dir [("x", .file [])])]) ["d"]).errMsg =
          some ("Failed to remove directory: " ++ pathStr ["d"]))) :=
  (remove_readdir_error_fallthrough
    ⟨fun _ => false, fun _ => false, fun _ => false, fun _ => false,
      fun p => if p = ["d"] then some 2 else none, fun _ => some 1023⟩
    1 (.dir [("d", .dir [("x", .file [])])]) ["d"] [("x", .file [])] 2
    rfl rfl rfl rfl).1 rfl

theorem not_mem_cons_of {α : Type} (a b : α) (l : List α) (h1 : b ≠ a)
    (h2 : a ∉ l) : a ∉ b :: l := by
  intro hm
  rcases List.mem_cons.mp hm with h | h
  · exact h1 h.symm
  · exact h2 h

theorem rmChildrenGo_trace_shape (env : SftpEnv) (p : List String)
    (go : Entry → List String → RmOut)
    (hgo : ∀ fs2 p2 op2, op2 ∈ (go fs2 p2).trace →
      ∃ suf, op2.path = p2 ++ suf ∧ "." ∉ suf ∧ ".." ∉ suf) :
    ∀ (l : List (String × Bool)) (fs : Entry) (op : Op),
      op ∈ (rmChildrenGo env p go l fs).trace →
      ∃ nm suf, op.path = p ++ nm :: suf ∧ nm ≠ "." ∧ nm ≠ ".." ∧
        "." ∉ suf ∧ ".." ∉ suf := by
  intro l
  induction l with
  | nil =>
    intro fs op hop
    simp [rmChildrenGo] at hop
  | cons x rest ih =>
    intro fs op hop
    obtain ⟨name, d⟩ := x
    rw [rmChildrenGo] at hop
    by_cases hdot : name = "." ∨ name = ".."
    · rw [if_pos hdot] at hop
      exact ih fs op hop
    · rw [if_neg hdot] at hop
      push_neg at hdot
      obtain ⟨hd1, hd2⟩ := hdot
      by_cases hd : d = true
      · rw [if_pos hd] at hop
        dsimp only at hop
        by_cases hret : (go fs (p ++ [name])).ret ≠ 0
        · rw [if_pos hret] at hop
          dsimp only at hop
          obtain ⟨suf, hpath, hs1, hs2⟩ := hgo fs (p ++ [name]) op hop
          exact ⟨name, suf, by simp [hpath], hd1, hd2, hs1, hs2⟩
        · rw [if_neg hret] at hop
          dsimp only at hop
          rcases List.mem_append.mp hop with hin | hin
          · obtain ⟨suf, hpath, hs1, hs2⟩ := hgo fs (p ++ [name]) op hin
            exact ⟨name, suf, by simp [hpath], hd1, hd2, hs1, hs2⟩
          · exact ih (go fs (p ++ [name])).fs op hin
      · rw [if_neg hd] at hop
        dsimp only at hop
        cases hu : sftpUnlink env fs (p ++ [name]) with
        | some fs1 =>
          rw [hu] at hop
          dsimp only at hop
          rcases List.mem_cons.mp hop with hin | hin
          · subst hin
            exact ⟨name, [], by simp [Op.path], hd1, hd2, by simp, by simp⟩
          · exact ih fs1 op hin
        | none =>
          rw [hu] at hop
          dsimp only at hop
          rcases List.mem_singleton.mp hop with hin
          subst hin
          exact ⟨name, [], by simp [Op.path], hd1, hd2, by simp, by simp⟩

theorem removeRec_trace_shape :
    ∀ (fuel : Nat) (env : SftpEnv) (fs : Entry) (p : List String) (op : Op),
      op ∈ (removeRec env fuel fs p).trace →
      ∃ suf, op.path = p ++ suf ∧ "." ∉ suf ∧ ".." ∉ suf := by
  intro fuel
  induction fuel with
  | zero =>
    intro env fs p op hop
    simp [removeRec] at hop
  | succ n ih =>
    intro env fs p op hop
    rw [removeRec] at hop
    cases hstat : sftpStat env fs p with
    | noSuchFile =>
      rw [hstat] at hop
      simp only [List.mem_singleton] at hop
      subst hop
      exact ⟨[], by simp [Op.path], by simp, by simp⟩
    | otherErr =>
      rw [hstat] at hop
      simp only [List.mem_singleton] at hop
      subst hop
      exact ⟨[], by simp [Op.path], by simp, by simp⟩
    | found e =>
      rw [hstat] at hop
      cases hu : sftpUnlink env fs p with
      | some fs1 =>
        rw [hu] at hop
        dsimp only at hop
        rcases List.mem_cons.mp hop with hin | hin
        · subst hin; exact ⟨[], by simp [Op.path], by simp, by simp⟩
        · rcases List.mem_singleton.mp hin with hin2
          subst hin2; exact ⟨[], by simp [Op.path], by simp, by simp⟩
      | none =>
        rw [hu] at hop
        cases hod : sftpOpendir env fs p with
        | none =>
          rw [hod] at hop
          cases hrm : sftpRmdir env fs p with
          | some fs1 =>
            rw [hrm] at hop
            simp only [List.mem_cons, List.not_mem_nil, or_false] at hop
            rcases hop with hin | hin | hin | hin
            all_goals (subst hin; exact ⟨[], by simp [Op.path], by simp, by simp⟩)
          | none =>
            rw [hrm] at hop
            simp only [List.mem_cons, List.not_mem_nil, or_false] at hop
            rcases hop with hin | hin | hin | hin
            all_goals (subst hin; exact ⟨[], by simp [Op.path], by simp, by simp⟩)
        | some listing =>
          rw [hod] at hop
          dsimp only at hop
          by_cases hrc : (rmChildrenGo env p (fun fs2 p2 => removeRec env n fs2 p2)
              (effListing env p listing) fs).ret ≠ 0
          · rw [if_pos hrc] at hop
            dsimp only at hop
            simp only [List.append_assoc, List.mem_append, List.mem_cons,
              List.mem_singleton, List.not_mem_nil, or_false] at hop
            rcases hop with (hin | hin | hin) | hin | hin
            · subst hin; exact ⟨[], by simp [Op.path], by simp, by simp⟩
            · subst hin; exact ⟨[], by simp [Op.path], by simp, by simp⟩
            · subst hin; exact ⟨[], by simp [Op.path], by simp, by simp⟩
            · obtain ⟨nm, suf, hpath, hn1, hn2, hs1, hs2⟩ :=
                rmChildrenGo_trace_shape env p _
                  (fun fs2 p2 op2 h2 => ih env fs2 p2 op2 h2) _ fs op hin
              exact ⟨nm :: suf, hpath, not_mem_cons_of _ _ _ hn1 hs1,
                not_mem_cons_of _ _ _ hn2 hs2⟩
            · subst hin; exact ⟨[], by simp [Op.path], by simp, by simp⟩
          · rw [if_neg hrc] at hop
            cases hrm : sftpRmdir env (rmChildrenGo env p
                (fun fs2 p2 => removeRec env n fs2 p2)
                (effListing env p listing) fs).fs p with
            | some fs1 =>
              rw [hrm] at hop
              dsimp only at hop
              simp only [List.append_assoc, List.mem_append, List.mem_cons,
                List.mem_singleton, List.not_mem_nil, or_false] at hop
              rcases hop with (hin | hin | hin) | hin | hin | hin
              · subst hin; exact ⟨[], by simp [Op.path], by simp, by simp⟩
              · subst hin; exact ⟨[], by simp [Op.path], by simp, by simp⟩
              · subst hin; exact ⟨[], by simp [Op.path], by simp, by simp⟩
              · obtain ⟨nm, suf, hpath, hn1, hn2, hs1, hs2⟩ :=
                  rmChildrenGo_trace_shape env p _
                    (fun fs2 p2 op2 h2 => ih env fs2 p2 op2 h2) _ fs op hin
                exact ⟨nm :: suf, hpath, not_mem_cons_of _ _ _ hn1 hs1,
                  not_mem_cons_of _ _ _ hn2 hs2⟩
              · subst hin; exact ⟨[], by simp [Op.path], by simp, by simp⟩
              · subst hin; exact ⟨[], by simp [Op.path], by simp, by simp⟩
            | none =>
              rw [hrm] at hop
              dsimp only at hop
              simp only [List.append_assoc, List.mem_append, List.mem_cons,
                List.mem_singleton, List.not_mem_nil, or_false] at hop
              rcases hop with (hin | hin | hin) | hin | hin | hin
              · subst hin; exact ⟨[], by simp [Op.path], by simp, by simp⟩
              · subst hin; exact ⟨[], by simp [Op.path], by simp, by simp⟩
              · subst hin; exact ⟨[], by simp [Op.path], by simp, by simp⟩
              · obtain ⟨nm, suf, hpath, hn1, hn2, hs1, hs2⟩ :=
                  rmChildrenGo_trace_shape env p _
                    (fun fs2 p2 op2 h2 => ih env fs2 p2 op2 h2) _ fs op hin
                exact ⟨nm :: suf, hpath, not_mem_cons_of _ _ _ hn1 hs1,
                  not_mem_cons_of _ _ _ hn2 hs2⟩
              · subst hin; exact ⟨[], by simp [Op.path], by simp, by simp⟩
              · subst hin; exact ⟨[], by simp [Op.path], by simp, by simp⟩

theorem removeRec_ret0_resolve_none (env : SftpEnv) (fuel : Nat) (fs : Entry)
    (P : List String) (h : (removeRec env fuel fs P).ret = 0) :
    Entry.resolve (removeRec env fuel fs P).fs P = none := by
  cases fuel with
  | zero =>
    rw [removeRec] at h
    simp at h
  | succ n =>
    rw [removeRec] at h ⊢
    cases hstat : sftpStat env fs P with
    | noSuchFile =>
      rw [hstat] at h
      exact resolve_of_stat_noSuchFile env fs P hstat
    | otherErr =>
      rw [hstat] at h
      simp at h
    | found e =>
      rw [hstat] at h
      cases hu : sftpUnlink env fs P with
      | some fs1 =>
        rw [hu] at h
        obtain ⟨hfs, hne⟩ := sftpUnlink_some_eq env fs P fs1 hu
        rw [hfs]
        exact resolve_removeAt_self P fs hne
      | none =>
        rw [hu] at h
        cases hod : sftpOpendir env fs P with
        | none =>
          rw [hod] at h
          cases hrm : sftpRmdir env fs P with
          | some fs1 =>
            rw [hrm] at h
            obtain ⟨hfs, hne⟩ := sftpRmdir_some_eq env fs P fs1 hrm
            rw [hfs]
            exact resolve_removeAt_self P fs hne
          | none =>
            rw [hrm] at h
            simp at h
        | some listing =>
          rw [hod] at h
          dsimp only at h ⊢
          by_cases hrc : (rmChildrenGo env P
              (fun fs2 p2 => removeRec env n fs2 p2)
              (effListing env P listing) fs).ret ≠ 0
          · rw [if_pos hrc] at h
            simp at h
          · rw [if_neg hrc] at h ⊢
            cases hrm : sftpRmdir env (rmChildrenGo env P
                (fun fs2 p2 => removeRec env n fs2 p2)
                (effListing env P listing) fs).fs P with
            | some fs1 =>
              rw [hrm] at h
              obtain ⟨hfs, hne⟩ := sftpRmdir_some_eq env _ P fs1 hrm
              rw [hfs]
              exact resolve_removeAt_self P _ hne
            | none =>
              rw [hrm] at h
              simp at h

theorem removeRec_ret0_dir_trace_last (env : SftpEnv) (fuel : Nat)
    (fs : Entry) (P : List String)
    (h : (removeRec env fuel fs P).ret = 0) (hd : isDirAt fs P = true) :
    (removeRec env fuel fs P).trace.getLast? = some (.rmdirOp P) := by
  obtain ⟨ds, hres⟩ : ∃ ds, Entry.resolve fs P = some (.dir ds) := by
    rw [isDirAt] at hd
    cases hr : Entry.resolve fs P with
    | none => rw [hr] at hd; cases hd
    | some e =>
      rw [hr] at hd
      cases e with
      | file c => cases hd
      | dir cs => exact ⟨cs, rfl⟩
  cases fuel with
  | zero =>
    rw [removeRec] at h
    simp at h
  | succ n =>
    rw [removeRec] at h ⊢
    cases hstat : sftpStat env fs P with
    | noSuchFile =>
      have hnone := resolve_of_stat_noSuchFile env fs P hstat
      rw [hnone] at hres
      simp at hres
    | otherErr =>
      rw [hstat] at h
      simp at h
    | found e =>
      rw [hstat] at h
      have hunl := sftpUnlink_of_dir env fs P ds hres
      rw [hunl] at h ⊢
      cases hod : sftpOpendir env fs P with
      | none =>
        rw [hod] at h
        cases hrm : sftpRmdir env fs P with
        | some fs1 => rfl
        | none =>
          rw [hrm] at h
          simp at h
      | some listing =>
        rw [hod] at h
        dsimp only at h ⊢
        by_cases hrc : (rmChildrenGo env P
            (fun fs2 p2 => removeRec env n fs2 p2)
            (effListing env P listing) fs).ret ≠ 0
        · rw [if_pos hrc] at h
          simp at h
        · rw [if_neg hrc] at h ⊢
          cases hrm : sftpRmdir env (rmChildrenGo env P
              (fun fs2 p2 => removeRec env n fs2 p2)
              (effListing env P listing) fs).fs P with
          | some fs1 =>
            dsimp only
            rw [List.getLast?_append_of_ne_nil _ (by simp)]
            rfl
          | none =>
            rw [hrm] at h
            simp at h

/-- C1: when sftp_remove_path_recursive returns success, the path and every
descendant of it are absent afterwards; every operation in the trace acts on
the path or on a descendant reached only through entries whose names are
neither "." nor ".." (those listing entries are skipped); and when the path
was a directory, the rmdir of the path itself is the last operation of the
call, after all child removals (depth-first, post-order). -/
theorem remove_success_subtree_gone (env : SftpEnv) (fuel : Nat) (fs : Entry)
    (P rest : List String) (op : Op)
    (hop : op ∈ (removeRec env fuel fs P).trace) :
    ((removeRec env fuel fs P).ret = 0 →
      Entry.resolve (removeRec env fuel fs P).fs (P ++ rest) = none) ∧
    (∃ suf, op.path = P ++ suf ∧ "." ∉ suf ∧ ".." ∉ suf) ∧
    ((removeRec env fuel fs P).ret = 0 → isDirAt fs P = true →
      (removeRec env fuel fs P).trace.getLast? = some (.rmdirOp P)) := by
  refine ⟨?_, ?_, ?_⟩
  · intro h
    rw [resolve_append, removeRec_ret0_resolve_none env fuel fs P h]
    rfl
  · exact removeRec_trace_shape fuel env fs P op hop
  · intro h hd
    exact removeRec_ret0_dir_trace_last env fuel fs P h hd

/-- Witness for C1: removing a concrete two-level tree in the ideal
environment. -/
theorem remove_success_subtree_gone_witness :
    ((removeRec .ideal 3 (.dir [("d", .dir [("f", .file [1])])]) ["d"]).ret = 0 →
      Entry.resolve
        (removeRec .ideal 3 (.dir [("d", .dir [("f", .file [1])])]) ["d"]).fs
        (["d"] ++ ["f"]) = none) ∧
    (∃ suf, (Op.statOp ["d"]).path = ["d"] ++ suf ∧ "." ∉ suf ∧ ".." ∉ suf) ∧
    ((removeRec .ideal 3 (.dir [("d", .dir [("f", .file [1])])]) ["d"]).ret = 0 →
      isDirAt (.dir [("d", .dir [("f", .file [1])])]) ["d"] = true →
      (removeRec .ideal 3
        (.dir [("d", .dir [("f", .file [1])])]) ["d"]).trace.getLast? =
        some (.rmdirOp ["d"])) :=
  remove_success_subtree_gone .ideal 3 (.dir [("d", .dir [("f", .file [1])])])
    ["d"] ["f"] (.statOp ["d"]) (by decide)

theorem sftpStat_found_eq (env : SftpEnv) (fs : Entry) (p : List String)
    (e : Entry) (h : sftpStat env fs p = .found e) :
    Entry.resolve fs p = some e := by
  rw [sftpStat] at h
  split at h
  · cases h
  · cases hr : Entry.resolve fs p with
    | none => rw [hr] at h; cases h
    | some x =>
      rw [hr] at h
      cases h
      rfl

theorem sftpMkdir_some_eq (fs : Entry) (p : List String) (fs1 : Entry)
    (h : sftpMkdir fs p = some fs1) :
    fs1 = fs.setAt p (.dir []) ∧ p ≠ [] ∧
      ∃ cs, Entry.resolve fs p.dropLast = some (.dir cs) := by
  rw [sftpMkdir.eq_def] at h
  cases hgl : p.getLast? with
  | none => rw [hgl] at h; cases h
  | some n =>
    rw [hgl] at h
    have hpne : p ≠ [] := by
      intro hp
      rw [hp] at hgl
      cases hgl
    cases hr : Entry.resolve fs p.dropLast with
    | none => rw [hr] at h; cases h
    | some e =>
      rw [hr] at h
      cases e with
      | file c => cases h
      | dir cs =>
        have h2 : (if (lookupName cs n).isSome = true then none
            else some (fs.setAt p (Entry.dir []))) = some fs1 := h
        by_cases hl : (lookupName cs n).isSome = true
        · rw [if_pos hl] at h2; cases h2
        · rw [if_neg hl] at h2
          cases h2
          exact ⟨rfl, hpne, cs, rfl⟩

theorem createLoop_ret0_resolve_dir (env : SftpEnv) :
    ∀ (todo done : List String) (fs : Entry) (cs : List (String × Entry)),
      Entry.resolve fs done = some (.dir cs) →
      (createLoop env fs done todo).ret = 0 →
      ∃ cs2, Entry.resolve (createLoop env fs done todo).fs (done ++ todo) =
        some (.dir cs2) := by
  intro todo
  induction todo with
  | nil =>
    intro done fs cs hres hret
    rw [createLoop]
    simpa using ⟨cs, hres⟩
  | cons part rest ih =>
    intro done fs cs hres hret
    rw [createLoop] at hret ⊢
    dsimp only at hret ⊢
    cases hstat : sftpStat env fs (done ++ [part]) with
    | found e =>
      rw [hstat] at hret
      dsimp only at hret ⊢
      have hre := sftpStat_found_eq env fs (done ++ [part]) e hstat
      by_cases hdir : e.isDir = true
      · rw [if_pos hdir] at hret ⊢
        cases e with
        | file c => rw [Entry.isDir] at hdir; cases hdir
        | dir ds =>
          obtain ⟨cs2, hfin⟩ := ih (done ++ [part]) fs ds hre hret
          refine ⟨cs2, ?_⟩
          rw [List.append_assoc] at hfin
          simpa using hfin
      · rw [if_neg hdir] at hret
        simp at hret
    | noSuchFile =>
      rw [hstat] at hret
      dsimp only at hret ⊢
      cases hmk : sftpMkdir fs (done ++ [part]) with
      | some fs1 =>
        rw [hmk] at hret
        dsimp only at hret ⊢
        obtain ⟨hfs1, hpne, pcs, hpar⟩ :=
          sftpMkdir_some_eq fs (done ++ [part]) fs1 hmk
        have hres1 : Entry.resolve fs1 (done ++ [part]) = some (.dir []) := by
          rw [hfs1]
          exact resolve_setAt_self (done ++ [part]) fs (.dir []) pcs hpar hpne
        obtain ⟨cs2, hfin⟩ := ih (done ++ [part]) fs1 [] hres1 hret
        refine ⟨cs2, ?_⟩
        rw [List.append_assoc] at hfin
        simpa using hfin
      | none =>
        rw [hmk] at hret
        simp at hret
    | otherErr =>
      rw [hstat] at hret
      dsimp only at hret ⊢
      cases hmk : sftpMkdir fs (done ++ [part]) with
      | some fs1 =>
        rw [hmk] at hret
        dsimp only at hret ⊢
        obtain ⟨hfs1, hpne, pcs, hpar⟩ :=
          sftpMkdir_some_eq fs (done ++ [part]) fs1 hmk
        have hres1 : Entry.resolve fs1 (done ++ [part]) = some (.dir []) := by
          rw [hfs1]
          exact resolve_setAt_self (done ++ [part]) fs (.dir []) pcs hpar hpne
        obtain ⟨cs2, hfin⟩ := ih (done ++ [part]) fs1 [] hres1 hret
        refine ⟨cs2, ?_⟩
        rw [List.append_assoc] at hfin
        simpa using hfin
      | none =>
        rw [hmk] at hret
        simp at hret

theorem create_ret0_resolve_dir (env : SftpEnv)
    (cs0 : List (String × Entry)) (P : List String)
    (h : (create_remote_directory_recursively env (.dir cs0) P).ret = 0) :
    ∃ ds, Entry.resolve
      (create_remote_directory_recursively env (.dir cs0) P).fs P =
      some (.dir ds) := by
  rw [create_remote_directory_recursively] at h ⊢
  cases hstat : sftpStat env (.dir cs0) P with
  | found e =>
    rw [hstat] at h
    dsimp only at h ⊢
    have hre := sftpStat_found_eq env (.dir cs0) P e hstat
    by_cases hdir : e.isDir = true
    · rw [if_pos hdir] at h ⊢
      cases e with
      | file c => rw [Entry.isDir] at hdir; cases hdir
      | dir ds => exact ⟨ds, hre⟩
    · rw [if_neg hdir] at h ⊢
      dsimp only at h ⊢
      have := createLoop_ret0_resolve_dir env P [] (.dir cs0) cs0 rfl h
      simpa using this
  | noSuchFile =>
    rw [hstat] at h
    dsimp only at h ⊢
    have := createLoop_ret0_resolve_dir env P [] (.dir cs0) cs0 rfl h
    simpa using this
  | otherErr =>
    rw [hstat] at h
    dsimp only at h ⊢
    have := createLoop_ret0_resolve_dir env P [] (.dir cs0) cs0 rfl h
    simpa using this

/-- C3 counterexample: the claim quantifies over every path in every remote
state, but on a remote tree where the path is occupied by a plain file the
first of the two calls already fails, so the two calls do not both succeed. -/
theorem ensure_directory_twice_counterexample :
    (create_remote_directory_recursively SftpEnv.ideal
      (.dir [("a", .file [])]) ["a"]).ret ≠ 0 := by
  decide

/-- C3 amended: whenever a call to create_remote_directory_recursively
succeeds, an immediately following call on the same path also succeeds,
performs no mkdir and no other mutation (its trace is the single stat of the
path), and leaves the remote state identical. -/
theorem ensure_directory_idempotent (cs0 : List (String × Entry))
    (P : List String)
    (h : (create_remote_directory_recursively SftpEnv.ideal (.dir cs0) P).ret
      = 0) :
    (create_remote_directory_recursively SftpEnv.ideal
        (create_remote_directory_recursively SftpEnv.ideal
          (.dir cs0) P).fs P).ret = 0 ∧
    (create_remote_directory_recursively SftpEnv.ideal
        (create_remote_directory_recursively SftpEnv.ideal
          (.dir cs0) P).fs P).fs =
      (create_remote_directory_recursively SftpEnv.ideal (.dir cs0) P).fs ∧
    (create_remote_directory_recursively SftpEnv.ideal
        (create_remote_directory_recursively SftpEnv.ideal
          (.dir cs0) P).fs P).trace = [.statOp P] ∧
    ∀ q, Op.mkdirOp q ∉ (create_remote_directory_recursively SftpEnv.ideal
        (create_remote_directory_recursively SftpEnv.ideal
          (.dir cs0) P).fs P).trace := by
  obtain ⟨ds, hres⟩ := create_ret0_resolve_dir SftpEnv.ideal cs0 P h
  have hstat : sftpStat SftpEnv.ideal
      (create_remote_directory_recursively SftpEnv.ideal (.dir cs0) P).fs P =
      .found (.dir ds) :=
    sftpStat_found SftpEnv.ideal _ P _ rfl hres
  have hsecond : create_remote_directory_recursively SftpEnv.ideal
      (create_remote_directory_recursively SftpEnv.ideal (.dir cs0) P).fs P =
      ⟨0, (create_remote_directory_recursively SftpEnv.ideal
        (.dir cs0) P).fs, [.statOp P]⟩ := by
    rw [create_remote_directory_recursively, hstat]
    rfl
  rw [hsecond]
  refine ⟨rfl, rfl, rfl, ?_⟩
  intro q hmem
  rcases List.mem_singleton.mp hmem

/-- Witness for C3 amended: materializing a two-component path in an empty
remote tree and calling again. -/
theorem ensure_directory_idempotent_witness :
    (create_remote_directory_recursively SftpEnv.ideal
        (create_remote_directory_recursively SftpEnv.ideal
          (.dir []) ["a", "b"]).fs ["a", "b"]).ret = 0 ∧
    (create_remote_directory_recursively SftpEnv.ideal
        (create_remote_directory_recursively SftpEnv.ideal
          (.dir []) ["a", "b"]).fs ["a", "b"]).fs =
      (create_remote_directory_recursively SftpEnv.ideal
        (.dir []) ["a", "b"]).fs ∧
    (create_remote_directory_recursively SftpEnv.ideal
        (create_remote_directory_recursively SftpEnv.ideal
          (.dir []) ["a", "b"]).fs ["a", "b"]).trace = [.statOp ["a", "b"]] ∧
    ∀ q, Op.mkdirOp q ∉ (create_remote_directory_recursively SftpEnv.ideal
        (create_remote_directory_recursively SftpEnv.ideal
          (.dir []) ["a", "b"]).fs ["a", "b"]).trace :=
  ensure_directory_idempotent [] ["a", "b"] (by decide)

theorem createLoop_file_prefix :
    ∀ (q done todo : List String) (fs : Entry) (c : List Nat),
      q ≠ [] → (∃ t, todo = q ++ t) →
      Entry.resolve fs (done ++ q) = some (.file c) →
      (createLoop SftpEnv.ideal fs done todo).ret = 1 ∧
      (createLoop SftpEnv.ideal fs done todo).fs = fs ∧
      (∀ s, Op.mkdirOp s ∉ (createLoop SftpEnv.ideal fs done todo).trace) ∧
      (createLoop SftpEnv.ideal fs done todo).trace.getLast? =
        some (.statOp (done ++ q)) := by
  intro q
  induction q with
  | nil => intro done todo fs c hne hpre hres; exact absurd rfl hne
  | cons a q2 ih =>
    intro done todo fs c hne hpre hres
    obtain ⟨t, rfl⟩ := hpre
    cases q2 with
    | nil =>
      have hstat : sftpStat SftpEnv.ideal fs (done ++ [a]) =
          .found (.file c) :=
        sftpStat_found SftpEnv.ideal fs (done ++ [a]) (.file c) rfl hres
      have heq : createLoop SftpEnv.ideal fs done ([a] ++ t) =
          ⟨1, fs, [.statOp (done ++ [a])]⟩ := by
        simp only [List.singleton_append]
        rw [createLoop, hstat]
        rfl
      rw [heq]
      refine ⟨rfl, rfl, ?_, by simp⟩
      intro s hmem
      simp at hmem
    | cons b q3 =>
      have hres2 : Entry.resolve fs ((done ++ [a]) ++ (b :: q3)) =
          some (.file c) := by
        rw [List.append_assoc]
        simpa using hres
      obtain ⟨cs1, hcur⟩ := resolve_parent_dir fs (done ++ [a]) (b :: q3)
        (.file c) (by simp) hres2
      have hstat : sftpStat SftpEnv.ideal fs (done ++ [a]) =
          .found (.dir cs1) :=
        sftpStat_found SftpEnv.ideal fs (done ++ [a]) (.dir cs1) rfl hcur
      obtain ⟨hret, hfs, hmk, hlast⟩ := ih (done ++ [a]) ((b :: q3) ++ t) fs c
        (by simp) ⟨t, rfl⟩ hres2
      have htrne : (createLoop SftpEnv.ideal fs (done ++ [a])
          ((b :: q3) ++ t)).trace ≠ [] := by
        intro hnil
        rw [hnil] at hlast
        cases hlast
      have heq : createLoop SftpEnv.ideal fs done ((a :: b :: q3) ++ t) =
          ⟨(createLoop SftpEnv.ideal fs (done ++ [a]) ((b :: q3) ++ t)).ret,
            (createLoop SftpEnv.ideal fs (done ++ [a]) ((b :: q3) ++ t)).fs,
            .statOp (done ++ [a]) ::
              (createLoop SftpEnv.ideal fs (done ++ [a])
                ((b :: q3) ++ t)).trace⟩ := by
        simp only [List.cons_append]
        rw [createLoop, hstat]
        rfl
      rw [heq]
      refine ⟨hret, hfs, ?_, ?_⟩
      · intro s hmem
        rcases List.mem_cons.mp hmem with hh | hh
        · cases hh
        · exact hmk s hh
      · rw [getLast?_cons_ne _ _ htrne, hlast]
        simp

/-- C4: when some nonempty prefix of the path exists remotely as a plain
file, create_remote_directory_recursively fails, mutates nothing, performs
no mkdir at all (in particular none for the conflicting component or beyond),
and its last operation is the stat of the conflicting prefix: the walk stops
there and the existing non-directory entry is never overwritten. -/
theorem ensure_directory_path_conflict (fs : Entry) (P q : List String)
    (c : List Nat) (hq : q <+: P) (hne : q ≠ [])
    (hfile : Entry.resolve fs q = some (.file c)) :
    (create_remote_directory_recursively SftpEnv.ideal fs P).ret = 1 ∧
    (create_remote_directory_recursively SftpEnv.ideal fs P).fs = fs ∧
    (∀ s, Op.mkdirOp s ∉
      (create_remote_directory_recursively SftpEnv.ideal fs P).trace) ∧
    (create_remote_directory_recursively SftpEnv.ideal fs P).trace.getLast? =
      some (.statOp q) := by
  obtain ⟨t, rfl⟩ := hq
  obtain ⟨hret, hfs, hmk, hlast⟩ := createLoop_file_prefix q [] (q ++ t) fs c
    hne ⟨t, rfl⟩ (by simpa using hfile)
  have htrne : (createLoop SftpEnv.ideal fs [] (q ++ t)).trace ≠ [] := by
    intro hnil
    rw [hnil] at hlast
    cases hlast
  have hfinish : ∀ hcreate : create_remote_directory_recursively SftpEnv.ideal
        fs (q ++ t) =
      ⟨(createLoop SftpEnv.ideal fs [] (q ++ t)).ret,
        (createLoop SftpEnv.ideal fs [] (q ++ t)).fs,
        .statOp (q ++ t) :: (createLoop SftpEnv.ideal fs [] (q ++ t)).trace⟩,
      (create_remote_directory_recursively SftpEnv.ideal fs (q ++ t)).ret = 1 ∧
      (create_remote_directory_recursively SftpEnv.ideal fs (q ++ t)).fs = fs ∧
      (∀ s, Op.mkdirOp s ∉
        (create_remote_directory_recursively SftpEnv.ideal fs (q ++ t)).trace) ∧
      (create_remote_directory_recursively SftpEnv.ideal
        fs (q ++ t)).trace.getLast? = some (.statOp q) := by
    intro hcreate
    rw [hcreate]
    refine ⟨hret, hfs, ?_, ?_⟩
    · intro s hmem
      rcases List.mem_cons.mp hmem with hh | hh
      · cases hh
      · exact hmk s hh
    · rw [getLast?_cons_ne _ _ htrne, hlast]
      simp
  cases hstat : sftpStat SftpEnv.ideal fs (q ++ t) with
  | found e =>
    have hnd : e.isDir = false := by
      have hre := sftpStat_found_eq SftpEnv.ideal fs (q ++ t) e hstat
      cases t with
      | nil =>
        rw [List.append_nil] at hre
        rw [hfile] at hre
        cases hre
        rfl
      | cons x xs =>
        rw [resolve_append, hfile] at hre
        simp only [Option.bind] at hre
        rw [Entry.resolve] at hre
        cases hre
    apply hfinish
    have heq0 : create_remote_directory_recursively SftpEnv.ideal fs (q ++ t) =
        (if e.isDir = true then
          (⟨0, fs, [.statOp (q ++ t)]⟩ : CrOut)
        else
          ⟨(createLoop SftpEnv.ideal fs [] (q ++ t)).ret,
            (createLoop SftpEnv.ideal fs [] (q ++ t)).fs,
            .statOp (q ++ t) ::
              (createLoop SftpEnv.ideal fs [] (q ++ t)).trace⟩) := by
      rw [create_remote_directory_recursively, hstat]
    rw [heq0, if_neg (by simp [hnd])]
  | noSuchFile =>
    apply hfinish
    rw [create_remote_directory_recursively, hstat]
  | otherErr =>
    have := statErr_of_stat_otherErr SftpEnv.ideal fs (q ++ t) hstat
    cases this

/-- Witness for C4 at a concrete file-obstructed path. -/
theorem ensure_directory_path_conflict_witness :
    (create_remote_directory_recursively SftpEnv.ideal
      (.dir [("a", .file [1])]) ["a", "b"]).ret = 1 ∧
    (create_remote_directory_recursively SftpEnv.ideal
      (.dir [("a", .file [1])]) ["a", "b"]).fs = .dir [("a", .file [1])] ∧
    (∀ s, Op.mkdirOp s ∉ (create_remote_directory_recursively SftpEnv.ideal
      (.dir [("a", .file [1])]) ["a", "b"]).trace) ∧
    (create_remote_directory_recursively SftpEnv.ideal
      (.dir [("a", .file [1])]) ["a", "b"]).trace.getLast? =
      some (.statOp ["a"]) :=
  ensure_directory_path_conflict (.dir [("a", .file [1])]) ["a", "b"] ["a"]
    [1] ⟨["b"], rfl⟩ (by simp) rfl

theorem countOp_append (o : Op) (l1 l2 : List Op) :
    countOp o (l1 ++ l2) = countOp o l1 + countOp o l2 := by
  induction l1 with
  | nil => simp [countOp]
  | cons x xs ih => simp [countOp, ih]; omega

theorem countOp_eq_zero_of_not_mem (o : Op) (l : List Op) (h : o ∉ l) :
    countOp o l = 0 := by
  induction l with
  | nil => rfl
  | cons x xs ih =>
    rw [countOp]
    have hne : ¬ x = o := fun he => h (he ▸ List.mem_cons_self x xs)
    rw [if_neg hne, ih (fun hm => h (List.mem_cons_of_mem x hm))]

theorem flushChunkGo_ok_bytes (env : SftpEnv) (p : List String) :
    ∀ (n idx : Nat) (chunk : List Nat), chunk.length ≤ n →
      ((flushChunkGo env p n idx chunk).ok = true →
        (flushChunkGo env p n idx chunk).bytes = chunk) ∧
      (∀ op ∈ (flushChunkGo env p n idx chunk).ops,
        op.writeSize ≤ chunk.length ∧ ∃ m, op = .writeOp p m) := by
  intro n
  induction n with
  | zero =>
    intro idx chunk hlen
    have hnil : chunk = [] := List.eq_nil_of_length_eq_zero (Nat.le_zero.mp hlen)
    subst hnil
    rw [flushChunkGo]
    simp
  | succ n ihn =>
    intro idx chunk hlen
    by_cases hc : chunk = []
    · subst hc
      rw [flushChunkGo]
      simp
    · rw [flushChunkGo, if_neg hc]
      cases hw : env.writeAccept idx with
      | none =>
        refine ⟨by simp, ?_⟩
        intro op hop
        simp only [List.mem_singleton] at hop
        subst hop
        exact ⟨le_rfl, _, rfl⟩
      | some k =>
        have h1 : 1 ≤ chunk.length := by
          cases hcl : chunk.length with
          | zero => exact absurd (List.eq_nil_of_length_eq_zero hcl) hc
          | succ m => omega
        have hlen2 : (chunk.drop (min chunk.length (k + 1))).length ≤ n := by
          rw [List.length_drop]
          have h2 : 1 ≤ min chunk.length (k + 1) := by omega
          omega
        obtain ⟨ihb, ihs⟩ := ihn (idx + 1)
          (chunk.drop (min chunk.length (k + 1))) hlen2
        constructor
        · intro hok
          dsimp only at hok ⊢
          rw [ihb hok]
          exact List.take_append_drop _ chunk
        · intro op hop
          dsimp only at hop
          rcases List.mem_cons.mp hop with hh | hh
          · subst hh
            exact ⟨le_rfl, _, rfl⟩
          · obtain ⟨hs, hm⟩ := ihs op hh
            refine ⟨le_trans hs ?_, hm⟩
            rw [List.length_drop]
            omega

theorem flushChunk_ok_props (env : SftpEnv) (p : List String) (idx : Nat)
    (chunk : List Nat) :
    ((flushChunk env p idx chunk).ok = true →
      (flushChunk env p idx chunk).bytes = chunk) ∧
    (∀ op ∈ (flushChunk env p idx chunk).ops,
      op.writeSize ≤ chunk.length ∧ ∃ m, op = .writeOp p m) :=
  flushChunkGo_ok_bytes env p chunk.length idx chunk le_rfl

theorem writeChunks_ok_bytes (env : SftpEnv) (p : List String) :
    ∀ (l : List (List Nat)) (idx : Nat),
      ((writeChunks env p idx l).ok = true →
        (writeChunks env p idx l).bytes = l.flatten) ∧
      (∀ op ∈ (writeChunks env p idx l).ops,
        (∀ c ∈ l, c.length ≤ 1024) → op.writeSize ≤ 1024) := by
  intro l
  induction l with
  | nil =>
    intro idx
    rw [writeChunks]
    simp
  | cons c rest ih =>
    intro idx
    rw [writeChunks]
    dsimp only
    by_cases hf : (flushChunk env p idx c).ok = true
    · rw [if_pos hf]
      obtain ⟨ihb, ihs⟩ := ih (flushChunk env p idx c).nextIdx
      constructor
      · intro hok
        dsimp only at hok ⊢
        rw [ihb hok, (flushChunk_ok_props env p idx c).1 hf]
        rfl
      · intro op hop hbound
        dsimp only at hop
        rcases List.mem_append.mp hop with hh | hh
        · obtain ⟨hs, _⟩ := (flushChunk_ok_props env p idx c).2 op hh
          exact le_trans hs (hbound c (List.mem_cons_self c rest))
        · exact ihs op hh (fun c2 hc2 => hbound c2 (List.mem_cons_of_mem c hc2))
    · rw [if_neg hf]
      constructor
      · intro hok
        dsimp only at hok
        simp at hok
      · intro op hop hbound
        dsimp only at hop
        obtain ⟨hs, _⟩ := (flushChunk_ok_props env p idx c).2 op hop
        exact le_trans hs (hbound c (List.mem_cons_self c rest))

theorem chunksOfGo_join_bound :
    ∀ (n : Nat) (l : List Nat), l.length ≤ n →
      (chunksOfGo n l).flatten = l ∧ ∀ c ∈ chunksOfGo n l, c.length ≤ 1024 := by
  intro n
  induction n with
  | zero =>
    intro l hlen
    have hnil : l = [] := List.eq_nil_of_length_eq_zero (Nat.le_zero.mp hlen)
    subst hnil
    rw [chunksOfGo]
    simp
  | succ n ihn =>
    intro l hlen
    by_cases hl : l = []
    · subst hl
      rw [chunksOfGo]
      simp
    · rw [chunksOfGo, if_neg hl]
      have h1 : 1 ≤ l.length := by
        cases hcl : l.length with
        | zero => exact absurd (List.eq_nil_of_length_eq_zero hcl) hl
        | succ m => omega
      have hlen2 : (l.drop 1024).length ≤ n := by
        rw [List.length_drop]
        omega
      obtain ⟨ihj, ihb⟩ := ihn (l.drop 1024) hlen2
      constructor
      · rw [List.flatten_cons, ihj]
        exact List.take_append_drop _ l
      · intro c hc
        rcases List.mem_cons.mp hc with hh | hh
        · subst hh
          exact List.length_take_le _ _
        · exact ihb c hh

theorem chunksOf_join_bound (l : List Nat) :
    (chunksOf l).flatten = l ∧ ∀ c ∈ chunksOf l, c.length ≤ 1024 :=
  chunksOfGo_join_bound l.length l le_rfl

theorem sftpOpenWrite_some_eq (fs : Entry) (p : List String) (fs1 : Entry)
    (h : sftpOpenWrite fs p = some fs1) :
    fs1 = fs.setAt p (.file []) ∧ p ≠ [] ∧
      ∃ cs, Entry.resolve fs p.dropLast = some (.dir cs) := by
  rw [sftpOpenWrite.eq_def] at h
  cases hgl : p.getLast? with
  | none => rw [hgl] at h; cases h
  | some n =>
    rw [hgl] at h
    have hpne : p ≠ [] := by
      intro hp
      rw [hp] at hgl
      cases hgl
    cases hr : Entry.resolve fs p.dropLast with
    | none => rw [hr] at h; cases h
    | some e =>
      rw [hr] at h
      cases e with
      | file c => cases h
      | dir cs =>
        cases hrp : Entry.resolve fs p with
        | none =>
          rw [hrp] at h
          cases h
          exact ⟨rfl, hpne, cs, rfl⟩
        | some e2 =>
          rw [hrp] at h
          cases e2 with
          | file c2 =>
            cases h
            exact ⟨rfl, hpne, cs, rfl⟩
          | dir cs2 => cases h

theorem createLoop_trace_ops (env : SftpEnv) :
    ∀ (todo done : List String) (fs : Entry) (op : Op),
      op ∈ (createLoop env fs done todo).trace →
      (∃ s, op = Op.statOp s) ∨ (∃ s, op = Op.mkdirOp s) := by
  intro todo
  induction todo with
  | nil =>
    intro done fs op hop
    rw [createLoop] at hop
    simp at hop
  | cons part rest ih =>
    intro done fs op hop
    rw [createLoop] at hop
    dsimp only at hop
    cases hstat : sftpStat env fs (done ++ [part]) with
    | found e =>
      rw [hstat] at hop
      dsimp only at hop
      by_cases hdir : e.isDir = true
      · rw [if_pos hdir] at hop
        dsimp only at hop
        rcases List.mem_cons.mp hop with hh | hh
        · subst hh; exact Or.inl ⟨_, rfl⟩
        · exact ih (done ++ [part]) fs op hh
      · rw [if_neg hdir] at hop
        simp only [List.mem_singleton] at hop
        subst hop
        exact Or.inl ⟨_, rfl⟩
    | noSuchFile =>
      rw [hstat] at hop
      dsimp only at hop
      cases hmk : sftpMkdir fs (done ++ [part]) with
      | some fs1 =>
        rw [hmk] at hop
        dsimp only at hop
        rcases List.mem_cons.mp hop with hh | hh
        · subst hh; exact Or.inl ⟨_, rfl⟩
        · rcases List.mem_cons.mp hh with hh2 | hh2
          · subst hh2; exact Or.inr ⟨_, rfl⟩
          · exact ih (done ++ [part]) fs1 op hh2
      | none =>
        rw [hmk] at hop
        rcases List.mem_cons.mp hop with hh | hh
        · subst hh; exact Or.inl ⟨_, rfl⟩
        · simp only [List.mem_singleton] at hh
          subst hh
          exact Or.inr ⟨_, rfl⟩
    | otherErr =>
      rw [hstat] at hop
      dsimp only at hop
      cases hmk : sftpMkdir fs (done ++ [part]) with
      | some fs1 =>
        rw [hmk] at hop
        dsimp only at hop
        rcases List.mem_cons.mp hop with hh | hh
        · subst hh; exact Or.inl ⟨_, rfl⟩
        · rcases List.mem_cons.mp hh with hh2 | hh2
          · subst hh2; exact Or.inr ⟨_, rfl⟩
          · exact ih (done ++ [part]) fs1 op hh2
      | none =>
        rw [hmk] at hop
        rcases List.mem_cons.mp hop with hh | hh
        · subst hh; exact Or.inl ⟨_, rfl⟩
        · simp only [List.mem_singleton] at hh
          subst hh
          exact Or.inr ⟨_, rfl⟩

theorem create_trace_ops (env : SftpEnv) (fs : Entry) (P : List String)
    (op : Op)
    (hop : op ∈ (create_remote_directory_recursively env fs P).trace) :
    (∃ s, op = Op.statOp s) ∨ (∃ s, op = Op.mkdirOp s) := by
  rw [create_remote_directory_recursively] at hop
  cases hstat : sftpStat env fs P with
  | found e =>
    rw [hstat] at hop
    dsimp only at hop
    by_cases hdir : e.isDir = true
    · rw [if_pos hdir] at hop
      simp only [List.mem_singleton] at hop
      subst hop
      exact Or.inl ⟨_, rfl⟩
    · rw [if_neg hdir] at hop
      dsimp only at hop
      rcases List.mem_cons.mp hop with hh | hh
      · subst hh; exact Or.inl ⟨_, rfl⟩
      · exact createLoop_trace_ops env P [] fs op hh
  | noSuchFile =>
    rw [hstat] at hop
    dsimp only at hop
    rcases List.mem_cons.mp hop with hh | hh
    · subst hh; exact Or.inl ⟨_, rfl⟩
    · exact createLoop_trace_ops env P [] fs op hh
  | otherErr =>
    rw [hstat] at hop
    dsimp only at hop
    rcases List.mem_cons.mp hop with hh | hh
    · subst hh; exact Or.inl ⟨_, rfl⟩
    · exact createLoop_trace_ops env P [] fs op hh

theorem upload_file_notdir_unfold (env : SftpEnv) (fs : Entry)
    (localPath : String) (content : List Nat) (remotePath : List String) :
    upload_file env fs localPath (.file content) remotePath =
      (let c := create_remote_directory_recursively env fs remotePath.dropLast
      if c.ret ≠ 0 then
        ⟨1, c.fs, c.trace,
          some ("Failed to create remote directory recursively: " ++
            pathStr remotePath.dropLast)⟩
      else
        match sftpOpenWrite c.fs remotePath with
        | none =>
          ⟨1, c.fs, c.trace ++ [.openFileOp remotePath false],
            some ("Unable to open remote file " ++ pathStr remotePath)⟩
        | some fs1 =>
          let w := writeChunks env remotePath 0 (chunksOf content)
          let fs2 := fs1.setAt remotePath (.file w.bytes)
          if w.ok then
            ⟨0, fs2,
              c.trace ++ [.openFileOp remotePath true, .lopenOp true] ++
                w.ops ++ [.lcloseOp, .closeFileOp remotePath], none⟩
          else
            ⟨1, fs2,
              c.trace ++ [.openFileOp remotePath true, .lopenOp true] ++
                w.ops ++ [.lcloseOp, .closeFileOp remotePath],
              some ("SFTP write error while writing to: " ++
                pathStr remotePath)⟩) :=
  rfl

/-- C2: a successful upload of a local file whose size is zero bytes, one
transfer chunk, or one chunk plus one byte leaves the remote file with
content byte-identical to the local file, for every short-write behaviour of
the transport, and every write in the trace asks the transport for at most
the 1024-byte buffer size. -/
theorem upload_roundtrip (env : SftpEnv) (fs : Entry) (localPath : String)
    (content : List Nat) (remotePath : List String) (op : Op)
    (hsz : content.length = 0 ∨ content.length = 1024 ∨
      content.length = 1025)
    (hop : op ∈ (upload_file env fs localPath (.file content)
      remotePath).trace)
    (hret : (upload_file env fs localPath (.file content) remotePath).ret
      = 0) :
    Entry.resolve
      (upload_file env fs localPath (.file content) remotePath).fs
      remotePath = some (.file content) ∧
    op.writeSize ≤ 1024 := by
  rw [upload_file_notdir_unfold] at hop hret ⊢
  dsimp only at hop hret ⊢
  by_cases hcr : (create_remote_directory_recursively env fs
      remotePath.dropLast).ret ≠ 0
  · rw [if_pos hcr] at hret
    simp at hret
  · rw [if_neg hcr] at hop hret ⊢
    cases how : sftpOpenWrite (create_remote_directory_recursively env fs
        remotePath.dropLast).fs remotePath with
    | none =>
      rw [how] at hret
      simp at hret
    | some fs1 =>
      rw [how] at hop hret
      dsimp only at hop hret ⊢
      by_cases hwk : (writeChunks env remotePath 0 (chunksOf content)).ok
        = true
      · rw [if_pos hwk] at hop hret ⊢
        dsimp only at hop hret ⊢
        obtain ⟨hfs1, hne, pcs, hpar⟩ :=
          sftpOpenWrite_some_eq _ remotePath fs1 how
        have hbytes : (writeChunks env remotePath 0 (chunksOf content)).bytes
            = content := by
          rw [(writeChunks_ok_bytes env remotePath (chunksOf content) 0).1 hwk]
          exact (chunksOf_join_bound content).1
        constructor
        · rw [hbytes, hfs1, setAt_setAt]
          exact resolve_setAt_self remotePath _ (.file content) pcs hpar hne
        · simp only [List.append_assoc, List.mem_append, List.mem_cons,
            List.not_mem_nil, or_false] at hop
          rcases hop with hc | h1 | h2 | h3 | h4
          · rcases create_trace_ops env fs remotePath.dropLast op hc with
              ⟨s, rfl⟩ | ⟨s, rfl⟩ <;> simp [Op.writeSize]
          · rcases h1 with rfl | rfl <;> simp [Op.writeSize]
          · exact (writeChunks_ok_bytes env remotePath (chunksOf content)
              0).2 op h2 (chunksOf_join_bound content).2
          · subst h3; simp [Op.writeSize]
          · subst h4; simp [Op.writeSize]
      · rw [if_neg hwk] at hret
        simp at hret

/-- Witness for C2: uploading the empty file into an empty remote tree. -/
theorem upload_roundtrip_witness :
    Entry.resolve
      (upload_file SftpEnv.ideal (.dir []) "loc" (.file []) ["f"]).fs
      ["f"] = some (.file []) ∧
    (Op.statOp ([] : List String)).writeSize ≤ 1024 :=
  upload_roundtrip SftpEnv.ideal (.dir []) "loc" [] ["f"] (.statOp [])
    (Or.inl rfl) (by decide) rfl

theorem not_append_singleton_prefix {α : Type} (P : List α) (a : α) :
    ¬ (P ++ [a]) <+: P := by
  intro h
  have := h.length_le
  simp at this

theorem rmChildrenGo_cons_skip (env : SftpEnv) (p : List String)
    (go : Entry → List String → RmOut) (name : String) (d : Bool)
    (t : List (String × Bool)) (fs : Entry)
    (h : name = "." ∨ name = "..") :
    rmChildrenGo env p go ((name, d) :: t) fs =
      rmChildrenGo env p go t fs := by
  rw [rmChildrenGo, if_pos h]

theorem rmChildrenGo_cons_dir_ok (env : SftpEnv) (p : List String)
    (go : Entry → List String → RmOut) (name : String) (d : Bool)
    (t : List (String × Bool)) (fs : Entry)
    (hdot : ¬ (name = "." ∨ name = ".."))
    (hd : d = true)
    (hok : ¬ (go fs (p ++ [name])).ret ≠ 0) :
    rmChildrenGo env p go ((name, d) :: t) fs =
      ⟨(rmChildrenGo env p go t (go fs (p ++ [name])).fs).ret,
       (rmChildrenGo env p go t (go fs (p ++ [name])).fs).fs,
       (go fs (p ++ [name])).trace ++
         (rmChildrenGo env p go t (go fs (p ++ [name])).fs).trace,
       (rmChildrenGo env p go t (go fs (p ++ [name])).fs).errMsg⟩ := by
  rw [rmChildrenGo, if_neg hdot, if_pos hd]
  dsimp only
  rw [if_neg hok]

theorem rmChildrenGo_cons_file_some (env : SftpEnv) (p : List String)
    (go : Entry → List String → RmOut) (name : String) (d : Bool)
    (t : List (String × Bool)) (fs fs1 : Entry)
    (hdot : ¬ (name = "." ∨ name = ".."))
    (hd : ¬ d = true)
    (hu : sftpUnlink env fs (p ++ [name]) = some fs1) :
    rmChildrenGo env p go ((name, d) :: t) fs =
      ⟨(rmChildrenGo env p go t fs1).ret, (rmChildrenGo env p go t fs1).fs,
       .unlinkOp (p ++ [name]) :: (rmChildrenGo env p go t fs1).trace,
       (rmChildrenGo env p go t fs1).errMsg⟩ := by
  rw [rmChildrenGo, if_neg hdot, if_neg hd, hu]

theorem rmChildrenGo_fail_frame (env : SftpEnv) (p : List String)
    (go : Entry → List String → RmOut)
    (hgo : ∀ fs2 p2 op2, op2 ∈ (go fs2 p2).trace →
      ∃ suf, op2.path = p2 ++ suf ∧ "." ∉ suf ∧ ".." ∉ suf) :
    ∀ (l : List (String × Bool)) (fs : Entry),
      (l.map Prod.fst).Nodup →
      (rmChildrenGo env p go l fs).ret ≠ 0 →
      (rmChildrenGo env p go l fs).ret = -1 ∧
      ∃ pre x post, l = pre ++ x :: post ∧ x.1 ≠ "." ∧ x.1 ≠ ".." ∧
        (rmChildrenGo env p go pre fs).ret = 0 ∧
        ((x.2 = true ∧
            (go (rmChildrenGo env p go pre fs).fs (p ++ [x.1])).ret ≠ 0 ∧
            (rmChildrenGo env p go l fs).trace =
              (rmChildrenGo env p go pre fs).trace ++
                (go (rmChildrenGo env p go pre fs).fs (p ++ [x.1])).trace) ∨
         (x.2 = false ∧
            sftpUnlink env (rmChildrenGo env p go pre fs).fs (p ++ [x.1])
              = none ∧
            (rmChildrenGo env p go l fs).trace =
              (rmChildrenGo env p go pre fs).trace ++
                [Op.unlinkOp (p ++ [x.1])])) ∧
        ∀ y ∈ post, ∀ op ∈ (rmChildrenGo env p go l fs).trace,
          ¬ (p ++ [y.1]) <+: op.path := by
  intro l
  induction l with
  | nil =>
    intro fs hnd hret
    rw [rmChildrenGo] at hret
    simp at hret
  | cons x0 rest ih =>
    intro fs hnd hret
    obtain ⟨name, d⟩ := x0
    simp only [List.map_cons, List.nodup_cons] at hnd
    obtain ⟨hname, hnd2⟩ := hnd
    by_cases hdot : name = "." ∨ name = ".."
    · rw [rmChildrenGo_cons_skip env p go name d rest fs hdot] at hret ⊢
      obtain ⟨hr1, pre, x, post, heq, hx1, hx2, hpre0, hfx, hframe⟩ :=
        ih fs hnd2 hret
      refine ⟨hr1, (name, d) :: pre, x, post, by simp [heq], hx1, hx2,
        ?_, ?_, hframe⟩
      · rw [rmChildrenGo_cons_skip env p go name d pre fs hdot]
        exact hpre0
      · rw [rmChildrenGo_cons_skip env p go name d pre fs hdot]
        exact hfx
    · have hd1 : name ≠ "." := fun hh => hdot (Or.inl hh)
      have hd2 : name ≠ ".." := fun hh => hdot (Or.inr hh)
      by_cases hd : d = true
      · by_cases hgr : (go fs (p ++ [name])).ret ≠ 0
        · rw [rmChildrenGo, if_neg hdot, if_pos hd] at hret ⊢
          dsimp only at hret ⊢
          rw [if_pos hgr] at hret ⊢
          refine ⟨rfl, [], (name, d), rest, rfl, hd1, hd2, rfl,
            Or.inl ⟨hd, hgr, rfl⟩, ?_⟩
          intro y hy op hop hpref
          dsimp only at hop
          obtain ⟨suf, hpath, _, _⟩ := hgo fs (p ++ [name]) op hop
          rw [hpath, List.append_assoc] at hpref
          have : y.1 = name := (singleton_prefix_cons p y.1 name suf).mp hpref
          exact hname (this ▸ List.mem_map_of_mem Prod.fst hy)
        · rw [rmChildrenGo, if_neg hdot, if_pos hd] at hret ⊢
          dsimp only at hret ⊢
          rw [if_neg hgr] at hret ⊢
          dsimp only at hret ⊢
          obtain ⟨hr1, pre, x, post, heq, hx1, hx2, hpre0, hfx, hframe⟩ :=
            ih (go fs (p ++ [name])).fs hnd2 hret
          have hc := rmChildrenGo_cons_dir_ok env p go name d pre fs hdot
            hd hgr
          refine ⟨hr1, (name, d) :: pre, x, post, by simp [heq], hx1, hx2,
            ?_, ?_, ?_⟩
          · rw [hc]
            exact hpre0
          · rw [hc]
            dsimp only
            rcases hfx with ⟨ht, hg2, ht2⟩ | ⟨ht, hu2, ht2⟩
            · exact Or.inl ⟨ht, hg2, by rw [ht2, List.append_assoc]⟩
            · exact Or.inr ⟨ht, hu2, by rw [ht2, List.append_assoc]⟩
          · intro y hy op hop hpref
            rcases List.mem_append.mp hop with hin | hin
            · obtain ⟨suf, hpath, _, _⟩ := hgo fs (p ++ [name]) op hin
              rw [hpath, List.append_assoc] at hpref
              have hy1 : y.1 = name :=
                (singleton_prefix_cons p y.1 name suf).mp hpref
              have : y.1 ∈ rest.map Prod.fst := by
                rw [heq]
                exact List.mem_map_of_mem Prod.fst
                  (List.mem_append_right pre (List.mem_cons_of_mem x hy))
              exact hname (hy1 ▸ this)
            · exact hframe y hy op hin hpref
      · rw [rmChildrenGo, if_neg hdot, if_neg hd] at hret ⊢
        cases hu : sftpUnlink env fs (p ++ [name]) with
        | some fs1 =>
          rw [hu] at hret
          dsimp only at hret ⊢
          obtain ⟨hr1, pre, x, post, heq, hx1, hx2, hpre0, hfx, hframe⟩ :=
            ih fs1 hnd2 hret
          have hc := rmChildrenGo_cons_file_some env p go name d pre fs fs1
            hdot hd hu
          refine ⟨hr1, (name, d) :: pre, x, post, by simp [heq], hx1, hx2,
            ?_, ?_, ?_⟩
          · rw [hc]
            exact hpre0
          · rw [hc]
            dsimp only
            rcases hfx with ⟨ht, hg2, ht2⟩ | ⟨ht, hu2, ht2⟩
            · exact Or.inl ⟨ht, hg2, by rw [ht2, List.cons_append]⟩
            · exact Or.inr ⟨ht, hu2, by rw [ht2, List.cons_append]⟩
          · intro y hy op hop hpref
            rcases List.mem_cons.mp hop with hin | hin
            · subst hin
              simp only [Op.path] at hpref
              have hy1 : y.1 = name := by
                have := (singleton_prefix_cons p y.1 name []).mp
                  (by simpa using hpref)
                exact this
              have : y.1 ∈ rest.map Prod.fst := by
                rw [heq]
                exact List.mem_map_of_mem Prod.fst
                  (List.mem_append_right pre (List.mem_cons_of_mem x hy))
              exact hname (hy1 ▸ this)
            · exact hframe y hy op hin hpref
        | none =>
          rw [hu] at hret
          have hdf : d = false := by
            cases d with
            | false => rfl
            | true => exact absurd rfl hd
          refine ⟨rfl, [], (name, d), rest, rfl, hd1, hd2, rfl,
            Or.inr ⟨hdf, hu, rfl⟩, ?_⟩
          intro y hy op hop hpref
          dsimp only at hop
          simp only [List.mem_singleton] at hop
          subst hop
          simp only [Op.path] at hpref
          have hy1 : y.1 = name := by
            have := (singleton_prefix_cons p y.1 name []).mp
              (by simpa using hpref)
            exact this
          exact hname (hy1 ▸ List.mem_map_of_mem Prod.fst hy)

/-- C6: when a child of a directory fails to be removed, the whole
sftp_remove_path_recursive call aborts immediately with an error: the
listing splits as the successfully processed children, the first failing
child, and the unprocessed siblings.  The processed prefix alone runs to
completion with return code 0, the failing child's removal attempt (a
recursive remove for a directory entry, an unlink for a file entry) fails
from the state reached after that prefix, and the children-loop trace is
exactly the prefix trace followed by the failing child's operations, so
nothing past the failing child is attempted.  No operation in the whole
trace touches any unprocessed sibling, no rmdir of the parent directory is
attempted, and the error message of the failing child is propagated
unchanged. -/
theorem remove_first_child_failure_aborts (env : SftpEnv) (n : Nat)
    (fs : Entry) (P : List String) (ds : List (String × Entry))
    (h0 : env.statErr P = false)
    (h1 : Entry.resolve fs P = some (.dir ds))
    (h2 : env.opendirErr P = false)
    (hnd : ((effListing env P (dirListing ds)).map Prod.fst).Nodup)
    (hfail : (rmChildrenGo env P (fun fs2 p2 => removeRec env n fs2 p2)
        (effListing env P (dirListing ds)) fs).ret ≠ 0) :
    (removeRec env (n + 1) fs P).ret = -1 ∧
    (removeRec env (n + 1) fs P).fs =
      (rmChildrenGo env P (fun fs2 p2 => removeRec env n fs2 p2)
        (effListing env P (dirListing ds)) fs).fs ∧
    (removeRec env (n + 1) fs P).errMsg =
      (rmChildrenGo env P (fun fs2 p2 => removeRec env n fs2 p2)
        (effListing env P (dirListing ds)) fs).errMsg ∧
    Op.rmdirOp P ∉ (removeRec env (n + 1) fs P).trace ∧
    ∃ pre x post,
      effListing env P (dirListing ds) = pre ++ x :: post ∧
      x.1 ≠ "." ∧ x.1 ≠ ".." ∧
      (rmChildrenGo env P (fun fs2 p2 => removeRec env n fs2 p2)
        pre fs).ret = 0 ∧
      ((x.2 = true ∧
          (removeRec env n
            (rmChildrenGo env P (fun fs2 p2 => removeRec env n fs2 p2)
              pre fs).fs (P ++ [x.1])).ret ≠ 0 ∧
          (rmChildrenGo env P (fun fs2 p2 => removeRec env n fs2 p2)
            (effListing env P (dirListing ds)) fs).trace =
            (rmChildrenGo env P (fun fs2 p2 => removeRec env n fs2 p2)
              pre fs).trace ++
              (removeRec env n
                (rmChildrenGo env P
                  (fun fs2 p2 => removeRec env n fs2 p2) pre fs).fs
                (P ++ [x.1])).trace) ∨
       (x.2 = false ∧
          sftpUnlink env
            (rmChildrenGo env P (fun fs2 p2 => removeRec env n fs2 p2)
              pre fs).fs (P ++ [x.1]) = none ∧
          (rmChildrenGo env P (fun fs2 p2 => removeRec env n fs2 p2)
            (effListing env P (dirListing ds)) fs).trace =
            (rmChildrenGo env P (fun fs2 p2 => removeRec env n fs2 p2)
              pre fs).trace ++ [Op.unlinkOp (P ++ [x.1])])) ∧
      ∀ y ∈ post, ∀ op ∈ (removeRec env (n + 1) fs P).trace,
        ¬ (P ++ [y.1]) <+: op.path := by
  have hgo : ∀ fs2 p2 op2, op2 ∈ (removeRec env n fs2 p2).trace →
      ∃ suf, op2.path = p2 ++ suf ∧ "." ∉ suf ∧ ".." ∉ suf :=
    fun fs2 p2 op2 hh => removeRec_trace_shape n env fs2 p2 op2 hh
  obtain ⟨hr1, pre, x, post, heq, hx1, hx2, hpre0, hfx, hframe⟩ :=
    rmChildrenGo_fail_frame env P _ hgo (effListing env P (dirListing ds))
      fs hnd hfail
  have hu := removeRec_dir_unfold env n fs P ds h0 h1 h2
  rw [hu]
  dsimp only
  rw [if_pos hfail]
  refine ⟨rfl, rfl, rfl, ?_, pre, x, post, heq, hx1, hx2, hpre0, hfx, ?_⟩
  · intro hmem
    simp only [List.append_assoc, List.mem_append, List.mem_cons,
      List.not_mem_nil, or_false] at hmem
    rcases hmem with (hh | hh | hh) | hh | hh
    · cases hh
    · cases hh
    · cases hh
    · obtain ⟨nm, suf, hpath, _, _, _, _⟩ :=
        rmChildrenGo_trace_shape env P _ hgo _ fs (Op.rmdirOp P) hh
      simp only [Op.path] at hpath
      have := congrArg List.length hpath
      simp at this
    · cases hh
  · intro y hy op hop
    simp only [List.append_assoc, List.mem_append, List.mem_cons,
      List.not_mem_nil, or_false] at hop
    rcases hop with (hh | hh | hh) | hh | hh
    · subst hh
      exact not_append_singleton_prefix P y.1
    · subst hh
      exact not_append_singleton_prefix P y.1
    · subst hh
      exact not_append_singleton_prefix P y.1
    · exact hframe y hy op hh
    · subst hh
      exact not_append_singleton_prefix P y.1

/-- Witness for C6: a directory with children x and y where unlinking x is
made to fail; the call aborts, the prefix before x was processed cleanly,
unlinking x from that state is the failure, the children-loop trace stops at
x's unlink, y is untouched, and no rmdir of the parent happens. -/
theorem remove_first_child_failure_aborts_witness :
    (removeRec
        ⟨fun _ => false, fun p => p == ["d", "x"], fun _ => false,
          fun _ => false, fun _ => none, fun _ => some 1023⟩
        2 (.dir [("d", .dir [("x", .file []), ("y", .file [])])]) ["d"]).ret
      = -1 ∧
    (removeRec
        ⟨fun _ => false, fun p => p == ["d", "x"], fun _ => false,
          fun _ => false, fun _ => none, fun _ => some 1023⟩
        2 (.dir [("d", .dir [("x", .file []), ("y", .file [])])]) ["d"]).fs =
      (rmChildrenGo
        ⟨fun _ => false, fun p => p == ["d", "x"], fun _ => false,
          fun _ => false, fun _ => none, fun _ => some 1023⟩
        ["d"]
        (fun fs2 p2 => removeRec
          ⟨fun _ => false, fun p => p == ["d", "x"], fun _ => false,
            fun _ => false, fun _ => none, fun _ => some 1023⟩
          1 fs2 p2)
        (effListing
          ⟨fun _ => false, fun p => p == ["d", "x"], fun _ => false,
            fun _ => false, fun _ => none, fun _ => some 1023⟩
          ["d"] (dirListing [("x", .file []), ("y", .file [])]))
        (.dir [("d", .dir [("x", .file []), ("y", .file [])])])).fs ∧
    (removeRec
        ⟨fun _ => false, fun p => p == ["d", "x"], fun _ => false,
          fun _ => false, fun _ => none, fun _ => some 1023⟩
        2 (.dir [("d", .dir [("x", .file []), ("y", .file [])])]) ["d"]).errMsg =
      (rmChildrenGo
        ⟨fun _ => false, fun p => p == ["d", "x"], fun _ => false,
          fun _ => false, fun _ => none, fun _ => some 1023⟩
        ["d"]
        (fun fs2 p2 => removeRec
          ⟨fun _ => false, fun p => p == ["d", "x"], fun _ => false,
            fun _ => false, fun _ => none, fun _ => some 1023⟩
          1 fs2 p2)
        (effListing
          ⟨fun _ => false, fun p => p == ["d", "x"], fun _ => false,
            fun _ => false, fun _ => none, fun _ => some 1023⟩
          ["d"] (dirListing [("x", .file []), ("y", .file [])]))
        (.dir [("d", .dir [("x", .file []), ("y", .file [])])])).errMsg ∧
    Op.rmdirOp ["d"] ∉ (removeRec
        ⟨fun _ => false, fun p => p == ["d", "x"], fun _ => false,
          fun _ => false, fun _ => none, fun _ => some 1023⟩
        2 (.dir [("d", .dir [("x", .file []), ("y", .file [])])]) ["d"]).trace ∧
    ∃ pre x post,
      effListing
        ⟨fun _ => false, fun p => p == ["d", "x"], fun _ => false,
          fun _ => false, fun _ => none, fun _ => some 1023⟩
        ["d"] (dirListing [("x", .file []), ("y", .file [])]) =
        pre ++ x :: post ∧
      x.1 ≠ "." ∧ x.1 ≠ ".." ∧
      (rmChildrenGo
        ⟨fun _ => false, fun p => p == ["d", "x"], fun _ => false,
          fun _ => false, fun _ => none, fun _ => some 1023⟩
        ["d"]
        (fun fs2 p2 => removeRec
          ⟨fun _ => false, fun p => p == ["d", "x"], fun _ => false,
            fun _ => false, fun _ => none, fun _ => some 1023⟩
          1 fs2 p2)
        pre (.dir [("d", .dir [("x", .file []), ("y", .file [])])])).ret
        = 0 ∧
      ((x.2 = true ∧
          (removeRec
            ⟨fun _ => false, fun p => p == ["d", "x"], fun _ => false,
              fun _ => false, fun _ => none, fun _ => some 1023⟩
            1
            (rmChildrenGo
              ⟨fun _ => false, fun p => p == ["d", "x"], fun _ => false,
                fun _ => false, fun _ => none, fun _ => some 1023⟩
              ["d"]
              (fun fs2 p2 => removeRec
                ⟨fun _ => false, fun p => p == ["d", "x"], fun _ => false,
                  fun _ => false, fun _ => none, fun _ => some 1023⟩
                1 fs2 p2)
              pre
              (.dir [("d", .dir [("x", .file []), ("y", .file [])])])).fs
            (["d"] ++ [x.1])).ret ≠ 0 ∧
          (rmChildrenGo
            ⟨fun _ => false, fun p => p == ["d", "x"], fun _ => false,
              fun _ => false, fun _ => none, fun _ => some 1023⟩
            ["d"]
            (fun fs2 p2 => removeRec
              ⟨fun _ => false, fun p => p == ["d", "x"], fun _ => false,
                fun _ => false, fun _ => none, fun _ => some 1023⟩
              1 fs2 p2)
            (effListing
              ⟨fun _ => false, fun p => p == ["d", "x"], fun _ => false,
                fun _ => false, fun _ => none, fun _ => some 1023⟩
              ["d"] (dirListing [("x", .file []), ("y", .file [])]))
            (.dir [("d", .dir [("x", .file []), ("y", .file [])])])).trace =
            (rmChildrenGo
              ⟨fun _ => false, fun p => p == ["d", "x"], fun _ => false,
                fun _ => false, fun _ => none, fun _ => some 1023⟩
              ["d"]
              (fun fs2 p2 => removeRec
                ⟨fun _ => false, fun p => p == ["d", "x"], fun _ => false,
                  fun _ => false, fun _ => none, fun _ => some 1023⟩
                1 fs2 p2)
              pre
              (.dir [("d", .dir [("x", .file []), ("y", .file [])])])).trace
              ++
              (removeRec
                ⟨fun _ => false, fun p => p == ["d", "x"], fun _ => false,
                  fun _ => false, fun _ => none, fun _ => some 1023⟩
                1
                (rmChildrenGo
                  ⟨fun _ => false, fun p => p == ["d", "x"],
                    fun _ => false, fun _ => false, fun _ => none,
                    fun _ => some 1023⟩
                  ["d"]
                  (fun fs2 p2 => removeRec
                    ⟨fun _ => false, fun p => p == ["d", "x"],
                      fun _ => false, fun _ => false, fun _ => none,
                      fun _ => some 1023⟩
                    1 fs2 p2)
                  pre
                  (.dir [("d",
                    .dir [("x", .file []), ("y", .file [])])])).fs
                (["d"] ++ [x.1])).trace) ∨
       (x.2 = false ∧
          sftpUnlink
            ⟨fun _ => false, fun p => p == ["d", "x"], fun _ => false,
              fun _ => false, fun _ => none, fun _ => some 1023⟩
            (rmChildrenGo
              ⟨fun _ => false, fun p => p == ["d", "x"], fun _ => false,
                fun _ => false, fun _ => none, fun _ => some 1023⟩
              ["d"]
              (fun fs2 p2 => removeRec
                ⟨fun _ => false, fun p => p == ["d", "x"], fun _ => false,
                  fun _ => false, fun _ => none, fun _ => some 1023⟩
                1 fs2 p2)
              pre
              (.dir [("d", .dir [("x", .file []), ("y", .file [])])])).fs
            (["d"] ++ [x.1]) = none ∧
          (rmChildrenGo
            ⟨fun _ => false, fun p => p == ["d", "x"], fun _ => false,
              fun _ => false, fun _ => none, fun _ => some 1023⟩
            ["d"]
            (fun fs2 p2 => removeRec
              ⟨fun _ => false, fun p => p == ["d", "x"], fun _ => false,
                fun _ => false, fun _ => none, fun _ => some 1023⟩
              1 fs2 p2)
            (effListing
              ⟨fun _ => false, fun p => p == ["d", "x"], fun _ => false,
                fun _ => false, fun _ => none, fun _ => some 1023⟩
              ["d"] (dirListing [("x", .file []), ("y", .file [])]))
            (.dir [("d", .dir [("x", .file []), ("y", .file [])])])).trace =
            (rmChildrenGo
              ⟨fun _ => false, fun p => p == ["d", "x"], fun _ => false,
                fun _ => false, fun _ => none, fun _ => some 1023⟩
              ["d"]
              (fun fs2 p2 => removeRec
                ⟨fun _ => false, fun p => p == ["d", "x"], fun _ => false,
                  fun _ => false, fun _ => none, fun _ => some 1023⟩
                1 fs2 p2)
              pre
              (.dir [("d", .dir [("x", .file []), ("y", .file [])])])).trace
              ++ [Op.unlinkOp (["d"] ++ [x.1])])) ∧
      ∀ y ∈ post, ∀ op ∈ (removeRec
          ⟨fun _ => false, fun p => p == ["d", "x"], fun _ => false,
            fun _ => false, fun _ => none, fun _ => some 1023⟩
          2 (.dir [("d", .dir [("x", .file []), ("y", .file [])])])
          ["d"]).trace,
        ¬ (["d"] ++ [y.1]) <+: op.path :=
  remove_first_child_failure_aborts
    ⟨fun _ => false, fun p => p == ["d", "x"], fun _ => false,
      fun _ => false, fun _ => none, fun _ => some 1023⟩
    1 (.dir [("d", .dir [("x", .file []), ("y", .file [])])]) ["d"]
    [("x", .file []), ("y", .file [])] rfl rfl rfl (by decide) (by decide)

theorem writeChunks_ops_write (env : SftpEnv) (p : List String) :
    ∀ (l : List (List Nat)) (idx : Nat) (op : Op),
      op ∈ (writeChunks env p idx l).ops → ∃ m, op = .writeOp p m := by
  intro l
  induction l with
  | nil =>
    intro idx op hop
    rw [writeChunks] at hop
    simp at hop
  | cons c rest ih =>
    intro idx op hop
    rw [writeChunks] at hop
    dsimp only at hop
    by_cases hf : (flushChunk env p idx c).ok = true
    · rw [if_pos hf] at hop
      dsimp only at hop
      rcases List.mem_append.mp hop with hh | hh
      · exact ((flushChunk_ok_props env p idx c).2 op hh).2
      · exact ih (flushChunk env p idx c).nextIdx op hh
    · rw [if_neg hf] at hop
      dsimp only at hop
      exact ((flushChunk_ok_props env p idx c).2 op hop).2

theorem rmChildrenGo_classify (env : SftpEnv) (p : List String)
    (go : Entry → List String → RmOut)
    (hgo : ∀ fs2 p2 op, op ∈ (go fs2 p2).trace →
      (∃ s, op = Op.statOp s) ∨ (∃ s, op = Op.unlinkOp s) ∨
      (∃ s b, op = Op.opendirOp s b) ∨ (∃ s, op = Op.closedirOp s) ∨
      (∃ s, op = Op.rmdirOp s)) :
    ∀ (l : List (String × Bool)) (fs : Entry) (op : Op),
      op ∈ (rmChildrenGo env p go l fs).trace →
      (∃ s, op = Op.statOp s) ∨ (∃ s, op = Op.unlinkOp s) ∨
      (∃ s b, op = Op.opendirOp s b) ∨ (∃ s, op = Op.closedirOp s) ∨
      (∃ s, op = Op.rmdirOp s) := by
  intro l
  induction l with
  | nil =>
    intro fs op hop
    rw [rmChildrenGo] at hop
    simp at hop
  | cons x0 rest ih =>
    intro fs op hop
    obtain ⟨name, d⟩ := x0
    rw [rmChildrenGo] at hop
    by_cases hdot : name = "." ∨ name = ".."
    · rw [if_pos hdot] at hop
      exact ih fs op hop
    · rw [if_neg hdot] at hop
      by_cases hd : d = true
      · rw [if_pos hd] at hop
        dsimp only at hop
        by_cases hgr : (go fs (p ++ [name])).ret ≠ 0
        · rw [if_pos hgr] at hop
          exact hgo fs (p ++ [name]) op hop
        · rw [if_neg hgr] at hop
          dsimp only at hop
          rcases List.mem_append.mp hop with hh | hh
          · exact hgo fs (p ++ [name]) op hh
          · exact ih (go fs (p ++ [name])).fs op hh
      · rw [if_neg hd] at hop
        cases hu : sftpUnlink env fs (p ++ [name]) with
        | some fs1 =>
          rw [hu] at hop
          dsimp only at hop
          rcases List.mem_cons.mp hop with hh | hh
          · subst hh
            exact Or.inr (Or.inl ⟨_, rfl⟩)
          · exact ih fs1 op hh
        | none =>
          rw [hu] at hop
          dsimp only at hop
          simp only [List.mem_singleton] at hop
          subst hop
          exact Or.inr (Or.inl ⟨_, rfl⟩)

theorem removeRec_classify :
    ∀ (fuel : Nat) (env : SftpEnv) (fs : Entry) (p : List String) (op : Op),
      op ∈ (removeRec env fuel fs p).trace →
      (∃ s, op = Op.statOp s) ∨ (∃ s, op = Op.unlinkOp s) ∨
      (∃ s b, op = Op.opendirOp s b) ∨ (∃ s, op = Op.closedirOp s) ∨
      (∃ s, op = Op.rmdirOp s) := by
  intro fuel
  induction fuel with
  | zero =>
    intro env fs p op hop
    simp [removeRec] at hop
  | succ n ih =>
    intro env fs p op hop
    rw [removeRec] at hop
    cases hstat : sftpStat env fs p with
    | noSuchFile =>
      rw [hstat] at hop
      simp only [List.mem_singleton] at hop
      subst hop
      exact Or.inl ⟨_, rfl⟩
    | otherErr =>
      rw [hstat] at hop
      simp only [List.mem_singleton] at hop
      subst hop
      exact Or.inl ⟨_, rfl⟩
    | found e =>
      rw [hstat] at hop
      cases hu : sftpUnlink env fs p with
      | some fs1 =>
        rw [hu] at hop
        dsimp only at hop
        rcases List.mem_cons.mp hop with hh | hh
        · subst hh; exact Or.inl ⟨_, rfl⟩
        · simp only [List.mem_singleton] at hh
          subst hh
          exact Or.inr (Or.inl ⟨_, rfl⟩)
      | none =>
        rw [hu] at hop
        cases hod : sftpOpendir env fs p with
        | none =>
          rw [hod] at hop
          cases hrm : sftpRmdir env fs p with
          | some fs1 =>
            rw [hrm] at hop
            simp only [List.mem_cons, List.not_mem_nil, or_false] at hop
            rcases hop with hh | hh | hh | hh
            · subst hh; exact Or.inl ⟨_, rfl⟩
            · subst hh; exact Or.inr (Or.inl ⟨_, rfl⟩)
            · subst hh; exact Or.inr (Or.inr (Or.inl ⟨_, _, rfl⟩))
            · subst hh; exact Or.inr (Or.inr (Or.inr (Or.inr ⟨_, rfl⟩)))
          | none =>
            rw [hrm] at hop
            simp only [List.mem_cons, List.not_mem_nil, or_false] at hop
            rcases hop with hh | hh | hh | hh
            · subst hh; exact Or.inl ⟨_, rfl⟩
            · subst hh; exact Or.inr (Or.inl ⟨_, rfl⟩)
            · subst hh; exact Or.inr (Or.inr (Or.inl ⟨_, _, rfl⟩))
            · subst hh; exact Or.inr (Or.inr (Or.inr (Or.inr ⟨_, rfl⟩)))
        | some listing =>
          rw [hod] at hop
          dsimp only at hop
          by_cases hrc : (rmChildrenGo env p (fun fs2 p2 => removeRec env n fs2 p2)
              (effListing env p listing) fs).ret ≠ 0
          · rw [if_pos hrc] at hop
            dsimp only at hop
            simp only [List.append_assoc, List.mem_append, List.mem_cons,
              List.not_mem_nil, or_false] at hop
            rcases hop with (hh | hh | hh) | hh | hh
            · subst hh; exact Or.inl ⟨_, rfl⟩
            · subst hh; exact Or.inr (Or.inl ⟨_, rfl⟩)
            · subst hh; exact Or.inr (Or.inr (Or.inl ⟨_, _, rfl⟩))
            · exact rmChildrenGo_classify env p _
                (fun fs2 p2 op2 h2 => ih env fs2 p2 op2 h2) _ fs op hh
            · subst hh; exact Or.inr (Or.inr (Or.inr (Or.inl ⟨_, rfl⟩)))
          · rw [if_neg hrc] at hop
            cases hrm : sftpRmdir env (rmChildrenGo env p
                (fun fs2 p2 => removeRec env n fs2 p2)
                (effListing env p listing) fs).fs p with
            | some fs1 =>
              rw [hrm] at hop
              dsimp only at hop
              simp only [List.append_assoc, List.mem_append, List.mem_cons,
                List.not_mem_nil, or_false] at hop
              rcases hop with (hh | hh | hh) | hh | hh | hh
              · subst hh; exact Or.inl ⟨_, rfl⟩
              · subst hh; exact Or.inr (Or.inl ⟨_, rfl⟩)
              · subst hh; exact Or.inr (Or.inr (Or.inl ⟨_, _, rfl⟩))
              · exact rmChildrenGo_classify env p _
                  (fun fs2 p2 op2 h2 => ih env fs2 p2 op2 h2) _ fs op hh
              · subst hh; exact Or.inr (Or.inr (Or.inr (Or.inl ⟨_, rfl⟩)))
              · subst hh; exact Or.inr (Or.inr (Or.inr (Or.inr ⟨_, rfl⟩)))
            | none =>
              rw [hrm] at hop
              dsimp only at hop
              simp only [List.append_assoc, List.mem_append, List.mem_cons,
                List.not_mem_nil, or_false] at hop
              rcases hop with (hh | hh | hh) | hh | hh | hh
              · subst hh; exact Or.inl ⟨_, rfl⟩
              · subst hh; exact Or.inr (Or.inl ⟨_, rfl⟩)
              · subst hh; exact Or.inr (Or.inr (Or.inl ⟨_, _, rfl⟩))
              · exact rmChildrenGo_classify env p _
                  (fun fs2 p2 op2 h2 => ih env fs2 p2 op2 h2) _ fs op hh
              · subst hh; exact Or.inr (Or.inr (Or.inr (Or.inl ⟨_, rfl⟩)))
              · subst hh; exact Or.inr (Or.inr (Or.inr (Or.inr ⟨_, rfl⟩)))

theorem rmChildrenGo_dir_balance (env : SftpEnv) (p q : List String)
    (go : Entry → List String → RmOut)
    (hgo : ∀ fs2 p2, countOp (.closedirOp q) (go fs2 p2).trace =
      countOp (.opendirOp q true) (go fs2 p2).trace) :
    ∀ (l : List (String × Bool)) (fs : Entry),
      countOp (.closedirOp q) (rmChildrenGo env p go l fs).trace =
      countOp (.opendirOp q true) (rmChildrenGo env p go l fs).trace := by
  intro l
  induction l with
  | nil =>
    intro fs
    simp [rmChildrenGo, countOp]
  | cons x0 rest ih =>
    intro fs
    obtain ⟨name, d⟩ := x0
    rw [rmChildrenGo]
    by_cases hdot : name = "." ∨ name = ".."
    · rw [if_pos hdot]
      exact ih fs
    · rw [if_neg hdot]
      by_cases hd : d = true
      · rw [if_pos hd]
        dsimp only
        by_cases hgr : (go fs (p ++ [name])).ret ≠ 0
        · rw [if_pos hgr]
          exact hgo fs (p ++ [name])
        · rw [if_neg hgr]
          dsimp only
          rw [countOp_append, countOp_append, hgo fs (p ++ [name]),
            ih (go fs (p ++ [name])).fs]
      · rw [if_neg hd]
        cases hu : sftpUnlink env fs (p ++ [name]) with
        | some fs1 =>
          dsimp only
          simp only [countOp]
          rw [if_neg (by simp), if_neg (by simp)]
          simpa using ih fs1
        | none =>
          dsimp only
          simp [countOp]

theorem removeRec_dir_balance :
    ∀ (fuel : Nat) (env : SftpEnv) (fs : Entry) (p q : List String),
      countOp (.closedirOp q) (removeRec env fuel fs p).trace =
      countOp (.opendirOp q true) (removeRec env fuel fs p).trace := by
  intro fuel
  induction fuel with
  | zero =>
    intro env fs p q
    simp [removeRec, countOp]
  | succ n ih =>
    intro env fs p q
    rw [removeRec]
    cases hstat : sftpStat env fs p with
    | noSuchFile => simp [countOp]
    | otherErr => simp [countOp]
    | found e =>
      cases hu : sftpUnlink env fs p with
      | some fs1 => simp [countOp]
      | none =>
        cases hod : sftpOpendir env fs p with
        | none =>
          cases hrm : sftpRmdir env fs p with
          | some fs1 => simp [countOp]
          | none => simp [countOp]
        | some listing =>
          dsimp only
          have hbal := rmChildrenGo_dir_balance env p q
            (fun fs2 p2 => removeRec env n fs2 p2)
            (fun fs2 p2 => ih env fs2 p2 q) (effListing env p listing) fs
          by_cases hrc : (rmChildrenGo env p
              (fun fs2 p2 => removeRec env n fs2 p2)
              (effListing env p listing) fs).ret ≠ 0
          · rw [if_pos hrc]
            dsimp only
            rw [countOp_append, countOp_append, countOp_append, countOp_append,
              hbal]
            by_cases hpq : p = q
            · subst hpq
              simp [countOp]
              omega
            · have h1 : ¬ Op.closedirOp p = Op.closedirOp q := by
                simp [hpq]
              have h2 : ¬ Op.opendirOp p true = Op.opendirOp q true := by
                simp [hpq]
              simp [countOp, h1, h2]
          · rw [if_neg hrc]
            cases hrm : sftpRmdir env (rmChildrenGo env p
                (fun fs2 p2 => removeRec env n fs2 p2)
                (effListing env p listing) fs).fs p with
            | some fs1 =>
              dsimp only
              rw [countOp_append, countOp_append, countOp_append, countOp_append,
                hbal]
              by_cases hpq : p = q
              · subst hpq
                simp [countOp]
                omega
              · have h1 : ¬ Op.closedirOp p = Op.closedirOp q := by
                  simp [hpq]
                have h2 : ¬ Op.opendirOp p true = Op.opendirOp q true := by
                  simp [hpq]
                simp [countOp, h1, h2]
            | none =>
              dsimp only
              rw [countOp_append, countOp_append, countOp_append, countOp_append,
                hbal]
              by_cases hpq : p = q
              · subst hpq
                simp [countOp]
                omega
              · have h1 : ¬ Op.closedirOp p = Op.closedirOp q := by
                  simp [hpq]
                have h2 : ¬ Op.opendirOp p true = Op.opendirOp q true := by
                  simp [hpq]
                simp [countOp, h1, h2]

theorem removeRec_no_file_ops (env : SftpEnv) (fuel : Nat) (fs : Entry)
    (p q : List String) :
    countOp (.closeFileOp q) (removeRec env fuel fs p).trace = 0 ∧
    countOp (.openFileOp q true) (removeRec env fuel fs p).trace = 0 ∧
    countOp .lcloseOp (removeRec env fuel fs p).trace = 0 ∧
    countOp (.lopenOp true) (removeRec env fuel fs p).trace = 0 := by
  refine ⟨?_, ?_, ?_, ?_⟩
  all_goals
    apply countOp_eq_zero_of_not_mem
    intro hmem
    rcases removeRec_classify fuel env fs p _ hmem with
      ⟨s, hs⟩ | ⟨s, hs⟩ | ⟨s, b, hs⟩ | ⟨s, hs⟩ | ⟨s, hs⟩ <;> cases hs

theorem upload_file_absent_unfold (env : SftpEnv) (fs : Entry)
    (localPath : String) (remotePath : List String) :
    upload_file env fs localPath .absent remotePath =
      (let c := create_remote_directory_recursively env fs remotePath.dropLast
      if c.ret ≠ 0 then
        ⟨1, c.fs, c.trace,
          some ("Failed to create remote directory recursively: " ++
            pathStr remotePath.dropLast)⟩
      else
        match sftpOpenWrite c.fs remotePath with
        | none =>
          ⟨1, c.fs, c.trace ++ [.openFileOp remotePath false],
            some ("Unable to open remote file " ++ pathStr remotePath)⟩
        | some fs1 =>
          ⟨1, fs1,
            c.trace ++
              [.openFileOp remotePath true, .lopenOp false,
                .closeFileOp remotePath],
            some ("Failed to open local file: " ++ localPath)⟩) :=
  rfl

theorem countOp_create_zero (env : SftpEnv) (fs : Entry) (P : List String)
    (o : Op) (h1 : ∀ s, ¬ o = Op.statOp s) (h2 : ∀ s, ¬ o = Op.mkdirOp s) :
    countOp o (create_remote_directory_recursively env fs P).trace = 0 := by
  apply countOp_eq_zero_of_not_mem
  intro hmem
  rcases create_trace_ops env fs P o hmem with ⟨s, hs⟩ | ⟨s, hs⟩
  · exact h1 s hs
  · exact h2 s hs

theorem countOp_writeChunks_zero (env : SftpEnv) (p : List String)
    (l : List (List Nat)) (idx : Nat) (o : Op)
    (h : ∀ m, ¬ o = Op.writeOp p m) :
    countOp o (writeChunks env p idx l).ops = 0 := by
  apply countOp_eq_zero_of_not_mem
  intro hmem
  obtain ⟨m, hm⟩ := writeChunks_ops_write env p l idx o hmem
  exact h m hm

theorem upload_balance (env : SftpEnv) (fs : Entry) (lp : String)
    (ln : LocalNode) (rp q : List String) :
    countOp (.closeFileOp q) (upload_file env fs lp ln rp).trace =
      countOp (.openFileOp q true) (upload_file env fs lp ln rp).trace ∧
    countOp .lcloseOp (upload_file env fs lp ln rp).trace =
      countOp (.lopenOp true) (upload_file env fs lp ln rp).trace ∧
    countOp (.closedirOp q) (upload_file env fs lp ln rp).trace =
      countOp (.opendirOp q true) (upload_file env fs lp ln rp).trace := by
  have hc1 := countOp_create_zero env fs rp.dropLast (.closeFileOp q)
    (by intro s; simp) (by intro s; simp)
  have hc2 := countOp_create_zero env fs rp.dropLast (.openFileOp q true)
    (by intro s; simp) (by intro s; simp)
  have hc3 := countOp_create_zero env fs rp.dropLast .lcloseOp
    (by intro s; simp) (by intro s; simp)
  have hc4 := countOp_create_zero env fs rp.dropLast (.lopenOp true)
    (by intro s; simp) (by intro s; simp)
  have hc5 := countOp_create_zero env fs rp.dropLast (.closedirOp q)
    (by intro s; simp) (by intro s; simp)
  have hc6 := countOp_create_zero env fs rp.dropLast (.opendirOp q true)
    (by intro s; simp) (by intro s; simp)
  cases ln with
  | dir =>
    have heq : upload_file env fs lp .dir rp =
        ⟨1, fs, [],
          some ("Uploading directories is not supported: " ++ lp)⟩ := rfl
    rw [heq]
    simp [countOp]
  | absent =>
    rw [upload_file_absent_unfold]
    dsimp only
    by_cases hcr : (create_remote_directory_recursively env fs
        rp.dropLast).ret ≠ 0
    · rw [if_pos hcr]
      exact ⟨by rw [hc1, hc2], by rw [hc3, hc4], by rw [hc5, hc6]⟩
    · rw [if_neg hcr]
      cases how : sftpOpenWrite (create_remote_directory_recursively env fs
          rp.dropLast).fs rp with
      | none =>
        dsimp only
        simp only [countOp_append, hc1, hc2, hc3, hc4, hc5, hc6]
        refine ⟨?_, ?_, ?_⟩ <;> simp [countOp]
      | some fs1 =>
        dsimp only
        simp only [countOp_append, hc1, hc2, hc3, hc4, hc5, hc6]
        refine ⟨?_, ?_, ?_⟩
        · by_cases hq : rp = q <;> simp [countOp, hq]
        · simp [countOp]
        · simp [countOp]
  | file content =>
    rw [upload_file_notdir_unfold]
    dsimp only
    by_cases hcr : (create_remote_directory_recursively env fs
        rp.dropLast).ret ≠ 0
    · rw [if_pos hcr]
      exact ⟨by rw [hc1, hc2], by rw [hc3, hc4], by rw [hc5, hc6]⟩
    · rw [if_neg hcr]
      cases how : sftpOpenWrite (create_remote_directory_recursively env fs
          rp.dropLast).fs rp with
      | none =>
        dsimp only
        simp only [countOp_append, hc1, hc2, hc3, hc4, hc5, hc6]
        refine ⟨?_, ?_, ?_⟩ <;> simp [countOp]
      | some fs1 =>
        dsimp only
        have hw1 := countOp_writeChunks_zero env rp (chunksOf content) 0
          (.closeFileOp q) (by intro m; simp)
        have hw2 := countOp_writeChunks_zero env rp (chunksOf content) 0
          (.openFileOp q true) (by intro m; simp)
        have hw3 := countOp_writeChunks_zero env rp (chunksOf content) 0
          .lcloseOp (by intro m; simp)
        have hw4 := countOp_writeChunks_zero env rp (chunksOf content) 0
          (.lopenOp true) (by intro m; simp)
        have hw5 := countOp_writeChunks_zero env rp (chunksOf content) 0
          (.closedirOp q) (by intro m; simp)
        have hw6 := countOp_writeChunks_zero env rp (chunksOf content) 0
          (.opendirOp q true) (by intro m; simp)
        by_cases hwk : (writeChunks env rp 0 (chunksOf content)).ok = true
        · rw [if_pos hwk]
          dsimp only
          simp only [countOp_append, hc1, hc2, hc3, hc4, hc5, hc6,
            hw1, hw2, hw3, hw4, hw5, hw6]
          refine ⟨?_, ?_, ?_⟩
          · by_cases hq : rp = q <;> simp [countOp, hq]
          · simp [countOp]
          · simp [countOp]
        · rw [if_neg hwk]
          dsimp only
          simp only [countOp_append, hc1, hc2, hc3, hc4, hc5, hc6,
            hw1, hw2, hw3, hw4, hw5, hw6]
          refine ⟨?_, ?_, ?_⟩
          · by_cases hq : rp = q <;> simp [countOp, hq]
          · simp [countOp]
          · simp [countOp]

/-- C9 counterexample: init_sftp_session acquires the socket descriptor and
then returns the error path for a failed connect without releasing it, so
not every acquired resource is released on every exit path. -/
theorem resource_release_counterexample :
    (init_sftp_session ⟨true, true, false, true, true, true⟩).1 = -1 ∧
    InitStep.acquire .sock ∈
      (init_sftp_session ⟨true, true, false, true, true, true⟩).2 ∧
    InitStep.release .sock ∉
      (init_sftp_session ⟨true, true, false, true, true, true⟩).2 := by
  decide

/-- C9 amended: in upload_file and sftp_remove_path_recursive every
successfully acquired handle is released exactly once on every exit path:
in every upload trace the closes of the remote file handle match its
successful opens, the local fclose matches the successful fopen, and
directory handles are never held; in every remove trace the closedir calls
match the successful opendir calls and no file handle is ever opened.
init_sftp_session, by contrast, leaks the socket on its failure paths. -/
theorem resource_release_balanced (uenv : SftpEnv) (ufs : Entry)
    (lp : String) (ln : LocalNode) (rp : List String) (renv : SftpEnv)
    (fuel : Nat) (rfs : Entry) (P q : List String) :
    (countOp (.closeFileOp q) (upload_file uenv ufs lp ln rp).trace =
      countOp (.openFileOp q true) (upload_file uenv ufs lp ln rp).trace) ∧
    (countOp .lcloseOp (upload_file uenv ufs lp ln rp).trace =
      countOp (.lopenOp true) (upload_file uenv ufs lp ln rp).trace) ∧
    (countOp (.closedirOp q) (upload_file uenv ufs lp ln rp).trace =
      countOp (.opendirOp q true) (upload_file uenv ufs lp ln rp).trace) ∧
    (countOp (.closedirOp q) (removeRec renv fuel rfs P).trace =
      countOp (.opendirOp q true) (removeRec renv fuel rfs P).trace) ∧
    (countOp (.closeFileOp q) (removeRec renv fuel rfs P).trace =
      countOp (.openFileOp q true) (removeRec renv fuel rfs P).trace) := by
  obtain ⟨h1, h2, h3⟩ := upload_balance uenv ufs lp ln rp q
  refine ⟨h1, h2, h3, removeRec_dir_balance fuel renv rfs P q, ?_⟩
  obtain ⟨hz1, hz2, _, _⟩ := removeRec_no_file_ops renv fuel rfs P q
  rw [hz1, hz2]

end Transmit
